import Mathlib

/-!
Verification development for the noteBoard persistence layer: a shallow
embedding of the SQLite-backed note/tag/settings repositories
(src/models/note_model.py, tag_model.py, settings_model.py over
database_model.py) together with proofs of the documented properties.

Modelling conventions:
* the database is a record of lists of rows (notes, tags, note_tags,
  settings), with the SQLite AUTOINCREMENT counters made explicit;
* timestamps are abstract `Nat` values; each operation that calls
  `get_current_timestamp()` receives the current time as an argument;
* `execute_query(..., fetch='none')` returns the affected row count, which
  is modelled by counting the rows matched by the statement's WHERE clause;
* Python exceptions from the storage layer (e.g. foreign-key violations)
  make the enclosing `execute_query`/`execute_many` roll back and the model
  method return its failure value, per the `try/except` blocks in the source.
-/

namespace NoteBoard

/-! ### Python string helpers

`str.strip()` removes leading and trailing whitespace.  It is modelled on
the character list (ASCII whitespace; the further Unicode space characters
accepted by Python are not exercised by the repository).
-/

def isPySpace (c : Char) : Bool :=
  c == ' ' || c == '\t' || c == '\n' || c == '\r' || c == '\x0b' || c == '\x0c'

def stripChars (cs : List Char) : List Char :=
  ((cs.dropWhile isPySpace).reverse.dropWhile isPySpace).reverse

def pyStrip (s : String) : String :=
  String.mk (stripChars s.data)

/-- Python digit test for `int()` / `float()` literals. -/
def isPyDigit (c : Char) : Bool :=
  '0' ≤ c && c ≤ '9'

def digitsToNat (ds : List Char) : Nat :=
  ds.foldl (fun acc c => acc * 10 + (c.toNat - '0'.toNat)) 0

/-- `int(s)` on a decimal literal: strip whitespace, optional sign, digits.
(Underscore digit grouping, accepted by Python, is not modelled; no result
in this development depends on it.) -/
def pyInt? (s : String) : Option Int :=
  let cs := stripChars s.data
  match cs with
  | '+' :: ds => if ds ≠ [] ∧ ds.all isPyDigit then some (Int.ofNat (digitsToNat ds)) else none
  | '-' :: ds => if ds ≠ [] ∧ ds.all isPyDigit then some (-(Int.ofNat (digitsToNat ds))) else none
  | ds => if ds ≠ [] ∧ ds.all isPyDigit then some (Int.ofNat (digitsToNat ds)) else none

def dropSign (cs : List Char) : List Char :=
  match cs with
  | '+' :: rest => rest
  | '-' :: rest => rest
  | _ => cs

/-- Mantissa part of a Python float literal: `digits [. digits]` or
`. digits`, with at least one digit. -/
def floatMantOk (cs : List Char) : Bool :=
  let intPart := cs.takeWhile isPyDigit
  let rest := cs.dropWhile isPyDigit
  match rest with
  | [] => !intPart.isEmpty
  | '.' :: frac => (!intPart.isEmpty || !frac.isEmpty) && frac.all isPyDigit
  | _ => false

def splitAtExp (cs : List Char) : List Char × Option (List Char) :=
  let pre := cs.takeWhile (fun c => !(c == 'e' || c == 'E'))
  let post := cs.dropWhile (fun c => !(c == 'e' || c == 'E'))
  match post with
  | [] => (pre, none)
  | _ :: ex => (pre, some ex)

def expPartOk (cs : List Char) : Bool :=
  let ds := dropSign cs
  !ds.isEmpty && ds.all isPyDigit

/-- Syntactic validity of `float(s)` for decimal/exponent literals ("inf"
and "nan" are unreachable here: the caller only tries `float` on strings
containing a dot). -/
def floatSyntaxOk (cs : List Char) : Bool :=
  let cs := dropSign cs
  match splitAtExp cs with
  | (m, none) => floatMantOk m
  | (m, some ex) => floatMantOk m && expPartOk ex

/-! ### Settings values

`SettingsModel` stores arbitrary Python values.  The repository only ever
uses booleans, ints, floats, strings and JSON-serialisable containers, so
the value universe is modelled by `Value`.  A float is carried by its
`str()` representation (its numeric identity is never consulted by the
settings code, which only serialises it with `str` and re-parses). -/

inductive Value where
  | vNone : Value
  | vBool (b : Bool) : Value
  | vInt (n : Int) : Value
  | vFloat (r : String) : Value
  | vStr (s : String) : Value
  | vList (xs : List Value) : Value
  | vDict (kvs : List (String × Value)) : Value

/-- `json.dumps` escaping for one character (`ensure_ascii=False`, so
non-ASCII characters stay verbatim; control characters below 0x20 other
than the named ones are not exercised). -/
def jsonEscapeChar (c : Char) : String :=
  if c = '"' then "\\\""
  else if c = '\\' then "\\\\"
  else if c = '\n' then "\\n"
  else if c = '\t' then "\\t"
  else if c = '\r' then "\\r"
  else if c = '\x08' then "\\b"
  else if c = '\x0c' then "\\f"
  else String.singleton c

def jsonEscape (s : String) : String :=
  String.join (s.data.map jsonEscapeChar)

mutual
/-- `json.dumps(value, ensure_ascii=False)` with the default separators. -/
def jsonOfValue : Value → String
  | .vNone => "null"
  | .vBool b => if b then "true" else "false"
  | .vInt n => toString n
  | .vFloat r => r
  | .vStr s => "\"" ++ jsonEscape s ++ "\""
  | .vList xs => "[" ++ jsonOfArray xs ++ "]"
  | .vDict kvs => "\x7b" ++ jsonOfObject kvs ++ "\x7d"

def jsonOfArray : List Value → String
  | [] => ""
  | [v] => jsonOfValue v
  | v :: vs => jsonOfValue v ++ ", " ++ jsonOfArray vs

def jsonOfObject : List (String × Value) → String
  | [] => ""
  | [kv] => "\"" ++ jsonEscape kv.1 ++ "\": " ++ jsonOfValue kv.2
  | kv :: kvs => "\"" ++ jsonEscape kv.1 ++ "\": " ++ jsonOfValue kv.2 ++ ", " ++ jsonOfObject kvs
end

/-- `SettingsModel._serialize_value`: containers via `json.dumps`, booleans
as the lowercase literals, everything else via `str()`. -/
def serialize_value : Value → String
  | .vDict kvs => jsonOfValue (.vDict kvs)
  | .vList xs => jsonOfValue (.vList xs)
  | .vBool b => if b then "true" else "false"
  | .vInt n => toString n
  | .vFloat r => r
  | .vStr s => s
  | .vNone => "None"

/-! ### A model of `json.loads`

Fuel-indexed recursive descent over the character list; the fuel is set to
the input length plus one, which bounds the nesting depth.  `\uXXXX`
escapes are not modelled (parsing such input fails, falling through to the
raw-string branch of `_parse_value`); no result below depends on them. -/

def jsonUnescapeChar (c : Char) : Option Char :=
  if c = '"' then some '"'
  else if c = '\\' then some '\\'
  else if c = '/' then some '/'
  else if c = 'n' then some '\n'
  else if c = 't' then some '\t'
  else if c = 'r' then some '\r'
  else if c = 'b' then some '\x08'
  else if c = 'f' then some '\x0c'
  else none

def jsonStringChars : List Char → Option (List Char × List Char)
  | [] => none
  | '"' :: rest => some ([], rest)
  | '\\' :: e :: rest =>
    match jsonUnescapeChar e with
    | some c => (jsonStringChars rest).map (fun p => (c :: p.1, p.2))
    | none => none
  | c :: rest => (jsonStringChars rest).map (fun p => (c :: p.1, p.2))

def jsonIsWS (c : Char) : Bool :=
  c == ' ' || c == '\t' || c == '\n' || c == '\r'

def jsonSkipWS (cs : List Char) : List Char :=
  cs.dropWhile jsonIsWS

/-- Consume a JSON number token; returns the consumed characters and the
rest.  The token is classified as an integer when it has no fraction or
exponent part, matching `json.loads`. -/
def jsonNumberToken (cs : List Char) : List Char × List Char :=
  let isNumChar := fun c =>
    isPyDigit c || c == '-' || c == '+' || c == '.' || c == 'e' || c == 'E'
  (cs.takeWhile isNumChar, cs.dropWhile isNumChar)

def jsonNumberValue (tok : List Char) : Option Value :=
  if tok.any (fun c => c == '.' || c == 'e' || c == 'E') then
    if floatSyntaxOk tok then some (.vFloat (String.mk tok)) else none
  else
    match pyInt? (String.mk tok) with
    | some n => some (.vInt n)
    | none => none

mutual
def jsonParseVal : Nat → List Char → Option (Value × List Char)
  | 0, _ => none
  | fuel + 1, cs =>
    match jsonSkipWS cs with
    | 'n' :: 'u' :: 'l' :: 'l' :: rest => some (.vNone, rest)
    | 't' :: 'r' :: 'u' :: 'e' :: rest => some (.vBool true, rest)
    | 'f' :: 'a' :: 'l' :: 's' :: 'e' :: rest => some (.vBool false, rest)
    | '"' :: rest =>
      (jsonStringChars rest).map (fun p => (.vStr (String.mk p.1), p.2))
    | '[' :: rest =>
      (match jsonSkipWS rest with
       | ']' :: rest2 => some (.vList [], rest2)
       | _ => (jsonParseItems fuel rest).map (fun p => (.vList p.1, p.2)))
    | '\x7b' :: rest =>
      (match jsonSkipWS rest with
       | '\x7d' :: rest2 => some (.vDict [], rest2)
       | _ => (jsonParseMembers fuel rest).map (fun p => (.vDict p.1, p.2)))
    | rest =>
      match jsonNumberToken rest with
      | ([], _) => none
      | (tok, rest2) => (jsonNumberValue tok).map (fun v => (v, rest2))

def jsonParseItems : Nat → List Char → Option (List Value × List Char)
  | 0, _ => none
  | fuel + 1, cs =>
    match jsonParseVal fuel cs with
    | none => none
    | some (v, rest) =>
      match jsonSkipWS rest with
      | ',' :: rest2 =>
        (jsonParseItems fuel rest2).map (fun p => (v :: p.1, p.2))
      | ']' :: rest2 => some ([v], rest2)
      | _ => none

def jsonParseMembers : Nat → List Char → Option (List (String × Value) × List Char)
  | 0, _ => none
  | fuel + 1, cs =>
    match jsonSkipWS cs with
    | '"' :: rest =>
      (match jsonStringChars rest with
       | none => none
       | some (key, rest2) =>
         match jsonSkipWS rest2 with
         | ':' :: rest3 =>
           (match jsonParseVal fuel rest3 with
            | none => none
            | some (v, rest4) =>
              match jsonSkipWS rest4 with
              | ',' :: rest5 =>
                (jsonParseMembers fuel rest5).map
                  (fun p => ((String.mk key, v) :: p.1, p.2))
              | '\x7d' :: rest5 => some ([(String.mk key, v)], rest5)
              | _ => none)
         | _ => none)
    | _ => none
end

/-- `json.loads(s)`: the whole input must be consumed (up to whitespace). -/
def pyJsonLoads (s : String) : Option Value :=
  match jsonParseVal (s.length + 1) s.data with
  | some (v, rest) => if jsonSkipWS rest = [] then some v else none
  | none => none

/-- Python `str.lower()` (ASCII case folding; the settings keys and
serialized literals compared here are ASCII). -/
def pyLower (s : String) : String :=
  String.mk (s.data.map Char.toLower)

/-- `SettingsModel._parse_value`: boolean literal, then number (`float` when
the string contains a dot, else `int`), then JSON, else the raw string. -/
def pyParseValue (s : String) : Value :=
  let lower := pyLower s
  if lower = "true" then .vBool true
  else if lower = "false" then .vBool false
  else
    let num? : Option Value :=
      if s.contains '.' then
        if floatSyntaxOk (stripChars s.data) then
          some (.vFloat (String.mk (stripChars s.data)))
        else none
      else (pyInt? s).map Value.vInt
    match num? with
    | some v => v
    | none =>
      match pyJsonLoads s with
      | some v => v
      | none => .vStr s

/-! ### The relational data model

Rows of the four tables created by `DatabaseManager.initialize_database`;
`settings` lives in its own state (`SettingsState`) since `SettingsModel`
pairs the table with an in-memory cache. -/

structure NoteRow where
  id : Nat
  title : String
  content : String
  created_at : Nat
  updated_at : Nat
  is_deleted : Bool
deriving Repr, DecidableEq

structure TagRow where
  id : Nat
  name : String
  color : String
  created_at : Nat
deriving Repr, DecidableEq

structure NoteTagRow where
  note_id : Nat
  tag_id : Nat
deriving Repr, DecidableEq

structure DB where
  notes : List NoteRow
  tags : List TagRow
  note_tags : List NoteTagRow
  nextNoteId : Nat
  nextTagId : Nat
deriving Repr, DecidableEq

/-- The freshly initialised database (SQLite rowids start at 1). -/
def emptyDB : DB :=
  { notes := [], tags := [], note_tags := [], nextNoteId := 1, nextTagId := 1 }

/-- `TagModel._validate_color`: the regex
`^#([A-Fa-f0-9]\x7b6\x7d|[A-Fa-f0-9]\x7b3\x7d)$`. -/
def isHexDigit (c : Char) : Bool :=
  ('0' ≤ c && c ≤ '9') || ('A' ≤ c && c ≤ 'F') || ('a' ≤ c && c ≤ 'f')

def validate_color (color : String) : Bool :=
  match color.data with
  | '#' :: rest => (rest.length == 6 || rest.length == 3) && rest.all isHexDigit
  | _ => false

/-- Whether a note with this id exists and is not soft-deleted (the join
condition used throughout: `JOIN notes n ON ... AND n.is_deleted = 0`). -/
def liveNoteExists (db : DB) (nid : Nat) : Bool :=
  db.notes.any (fun n => n.id == nid && !n.is_deleted)

/-- Whether a tag row with this id exists (foreign-key target). -/
def tagExists (db : DB) (tid : Nat) : Bool :=
  db.tags.any (fun t => t.id == tid)

/-- `TagModel._get_tag_note_count`:
`SELECT COUNT(DISTINCT nt.note_id) FROM note_tags nt JOIN notes n ON
nt.note_id = n.id WHERE nt.tag_id = ? AND n.is_deleted = 0`. -/
def tagNoteCount (db : DB) (tid : Nat) : Nat :=
  (((db.note_tags.filter
      (fun p => p.tag_id == tid && liveNoteExists db p.note_id)).map
    (fun p => p.note_id)).dedup).length

namespace TagModel

/-- `TagModel.get_by_id` (existence part; the returned dict's `note_count`
is `tagNoteCount`). -/
def get_by_id (db : DB) (tag_id : Nat) : Option TagRow :=
  db.tags.find? (fun t => t.id == tag_id)

/-- `TagModel.get_by_name`: `SELECT ... FROM tags WHERE name = ?` with the
argument stripped; SQLite `=` on TEXT is case-sensitive. -/
def get_by_name (db : DB) (name : String) : Option TagRow :=
  db.tags.find? (fun t => t.name == pyStrip name)

/-- `TagModel.create`: validate the name, reject duplicates, silently fall
back to the default color `#007ACC` on an invalid color, insert, and
return `last_insert_rowid()`. -/
def create (db : DB) (name color : String) (now : Nat) : Option Nat × DB :=
  let name := pyStrip name
  if name = "" then (none, db)
  else if (get_by_name db name).isSome then (none, db)
  else
    let color := if validate_color color then color else "#007ACC"
    let row : TagRow := { id := db.nextTagId, name := name, color := color, created_at := now }
    (some db.nextTagId,
      { db with tags := db.tags ++ [row], nextTagId := db.nextTagId + 1 })

/-- `TagModel.update`: requires the tag to exist; an empty or conflicting
name fails, an invalid color fails (stricter than `create`); otherwise
`UPDATE tags SET ... WHERE id = ?` and success iff a row was affected. -/
def update (db : DB) (tag_id : Nat) (name? color? : Option String) : Bool × DB :=
  match get_by_id db tag_id with
  | none => (false, db)
  | some _ =>
    let nameCheck : Option (Option String) :=
      match name? with
      | none => some none
      | some raw =>
        let n := pyStrip raw
        if n = "" then none
        else
          match get_by_name db n with
          | some other => if other.id ≠ tag_id then none else some (some n)
          | none => some (some n)
    match nameCheck with
    | none => (false, db)
    | some nameField =>
      let colorOk := match color? with
        | none => true
        | some c => validate_color c
      if !colorOk then (false, db)
      else if nameField.isNone && color?.isNone then (false, db)
      else
        let applyFields := fun (t : TagRow) =>
          let t := match nameField with
            | some n => { t with name := n }
            | none => t
          match color? with
          | some c => { t with color := c }
          | none => t
        let affected := (db.tags.filter (fun t => t.id == tag_id)).length
        let db' := { db with
          tags := db.tags.map (fun t => if t.id == tag_id then applyFields t else t) }
        if affected > 0 then (true, db') else (false, db')

/-- `TagModel.delete` (the safe path): refuses while `note_count > 0`,
otherwise `DELETE FROM tags WHERE id = ?`. -/
def delete (db : DB) (tag_id : Nat) : Bool × DB :=
  match get_by_id db tag_id with
  | none => (false, db)
  | some _ =>
    if tagNoteCount db tag_id > 0 then (false, db)
    else
      let affected := (db.tags.filter (fun t => t.id == tag_id)).length
      let db' := { db with tags := db.tags.filter (fun t => !(t.id == tag_id)) }
      if affected > 0 then (true, db') else (false, db')

/-- `TagModel.force_delete`: first `DELETE FROM note_tags WHERE tag_id = ?`,
then `DELETE FROM tags WHERE id = ?`. -/
def force_delete (db : DB) (tag_id : Nat) : Bool × DB :=
  match get_by_id db tag_id with
  | none => (false, db)
  | some _ =>
    let db1 := { db with
      note_tags := db.note_tags.filter (fun p => !(p.tag_id == tag_id)) }
    let affected : Nat := (db1.tags.filter (fun t => t.id == tag_id)).length
    let db2 := { db1 with tags := db1.tags.filter (fun t => !(t.id == tag_id)) }
    if affected > 0 then (true, db2) else (false, db2)

/-- `TagModel.get_all` with `include_unused = False`:
`SELECT DISTINCT t.* FROM tags t JOIN note_tags nt ON t.id = nt.tag_id`
(the `ORDER BY t.name ASC` clause only permutes the result and is omitted;
the properties below are about membership). -/
def get_all_used_join (db : DB) : List TagRow :=
  db.tags.filter (fun t => db.note_tags.any (fun p => p.tag_id == t.id))

/-- `TagModel.get_unused_tags`: `return self.get_all({'include_unused': False})`. -/
def get_unused_tags (db : DB) : List TagRow :=
  get_all_used_join db

end TagModel

namespace NoteModel

/-- `NoteModel.get_by_id`:
`SELECT ... FROM notes WHERE id = ? AND is_deleted = 0` (the attached tag
list does not affect the properties below). -/
def get_by_id (db : DB) (note_id : Nat) : Option NoteRow :=
  db.notes.find? (fun n => n.id == note_id && !n.is_deleted)

/-- One `INSERT OR IGNORE INTO note_tags` statement per pair, in order. -/
def insertPairs (rows : List NoteTagRow) (nid : Nat) (tids : List Nat) : List NoteTagRow :=
  tids.foldl
    (fun acc tid =>
      if acc.any (fun p => p.note_id == nid && p.tag_id == tid) then acc
      else acc ++ [{ note_id := nid, tag_id := tid }])
    rows

/-- `NoteModel._add_note_tags`: a single `execute_many` batch; a
foreign-key violation (nonexistent note or tag) raises, rolling back the
whole batch, and the exception is swallowed inside the helper. -/
def _add_note_tags (db : DB) (note_id : Nat) (tag_ids : List Nat) : DB :=
  if tag_ids = [] then db
  else if tag_ids.all (tagExists db) && db.notes.any (fun n => n.id == note_id) then
    { db with note_tags := insertPairs db.note_tags note_id tag_ids }
  else db

/-- `NoteModel._clear_note_tags`: `DELETE FROM note_tags WHERE note_id = ?`. -/
def _clear_note_tags (db : DB) (note_id : Nat) : DB :=
  { db with note_tags := db.note_tags.filter (fun p => !(p.note_id == note_id)) }

/-- `NoteModel._update_note_tags`: clear, then re-insert (only when the new
list is non-empty). -/
def _update_note_tags (db : DB) (note_id : Nat) (tag_ids : List Nat) : DB :=
  let db1 := _clear_note_tags db note_id
  if tag_ids ≠ [] then _add_note_tags db1 note_id tag_ids else db1

/-- `NoteModel.create`: a stripped-empty title fails; otherwise insert with
`created_at = updated_at = now`, associate the given tags (`tag_ids`
present and truthy, i.e. non-empty), and return `last_insert_rowid()`. -/
def create (db : DB) (title content : String) (tag_ids : List Nat) (now : Nat) :
    Option Nat × DB :=
  let title := pyStrip title
  if title = "" then (none, db)
  else
    let row : NoteRow :=
      { id := db.nextNoteId, title := title, content := content,
        created_at := now, updated_at := now, is_deleted := false }
    let db1 := { db with notes := db.notes ++ [row], nextNoteId := db.nextNoteId + 1 }
    let db2 := if tag_ids ≠ [] then _add_note_tags db1 db.nextNoteId tag_ids else db1
    (some db.nextNoteId, db2)

/-- `NoteModel.update`: requires a live row; a provided title must be
non-empty after strip; always refreshes `updated_at`; on success a provided
`tag_ids` replaces the association set. -/
def update (db : DB) (note_id : Nat) (title? content? : Option String)
    (tagIds? : Option (List Nat)) (now : Nat) : Bool × DB :=
  match get_by_id db note_id with
  | none => (false, db)
  | some _ =>
    let titleCheck : Option (Option String) :=
      match title? with
      | none => some none
      | some raw =>
        let t := pyStrip raw
        if t = "" then none else some (some t)
    match titleCheck with
    | none => (false, db)
    | some titleField =>
      let applyFields := fun (n : NoteRow) =>
        let n := match titleField with
          | some t => { n with title := t }
          | none => n
        let n := match content? with
          | some c => { n with content := c }
          | none => n
        { n with updated_at := now }
      let affected := (db.notes.filter (fun n => n.id == note_id && !n.is_deleted)).length
      let db1 := { db with
        notes := db.notes.map
          (fun n => if n.id == note_id && !n.is_deleted then applyFields n else n) }
      if affected > 0 then
        let db2 := match tagIds? with
          | some tids => _update_note_tags db1 note_id tids
          | none => db1
        (true, db2)
      else (false, db1)

/-- `NoteModel.delete`: soft delete
(`UPDATE notes SET is_deleted = 1, updated_at = ? WHERE id = ? AND
is_deleted = 0`), then clear the note's tag associations. -/
def delete (db : DB) (note_id : Nat) (now : Nat) : Bool × DB :=
  match get_by_id db note_id with
  | none => (false, db)
  | some _ =>
    let affected := (db.notes.filter (fun n => n.id == note_id && !n.is_deleted)).length
    let db1 := { db with
      notes := db.notes.map
        (fun n =>
          if n.id == note_id && !n.is_deleted then
            { n with is_deleted := true, updated_at := now }
          else n) }
    if affected > 0 then (true, _clear_note_tags db1 note_id) else (false, db1)

/-- `NoteModel.add_tag_to_note`: requires a live note; then
`INSERT OR IGNORE INTO note_tags` — a missing tag makes the insert raise a
foreign-key error (caught, returning failure), an existing pair is ignored
with `rowcount = 0`.  The third component lists the emitted events. -/
def add_tag_to_note (db : DB) (note_id tag_id : Nat) : Bool × DB × List String :=
  match get_by_id db note_id with
  | none => (false, db, [])
  | some _ =>
    if !(tagExists db tag_id) then (false, db, [])
    else if db.note_tags.any (fun p => p.note_id == note_id && p.tag_id == tag_id) then
      (false, db, [])
    else
      (true,
       { db with note_tags := db.note_tags ++ [{ note_id := note_id, tag_id := tag_id }] },
       ["note_tag_added"])

/-- `NoteModel.remove_tag_from_note`:
`DELETE FROM note_tags WHERE note_id = ? AND tag_id = ?`; success and the
event exactly when a row was affected. -/
def remove_tag_from_note (db : DB) (note_id tag_id : Nat) : Bool × DB × List String :=
  let affected :=
    (db.note_tags.filter (fun p => p.note_id == note_id && p.tag_id == tag_id)).length
  let db1 := { db with
    note_tags := db.note_tags.filter (fun p => !(p.note_id == note_id && p.tag_id == tag_id)) }
  if affected > 0 then (true, db1, ["note_tag_removed"]) else (false, db1, ([] : List String))

end NoteModel

/-! ### Settings repository -/

structure SettingRow where
  key : String
  value : String
  created_at : Nat
  updated_at : Nat
deriving Repr, DecidableEq

/-- `SettingsModel`'s state: the `settings` table plus the in-memory
`_settings_cache` dict (an insertion-ordered key/value association). -/
structure SettingsState where
  store : List SettingRow
  cache : List (String × Value)

namespace SettingsModel

/-- Python dict assignment `cache[key] = v`: replace in place, else append. -/
def cacheSet (cache : List (String × Value)) (k : String) (v : Value) :
    List (String × Value) :=
  if cache.any (fun p => p.1 == k) then
    cache.map (fun p => if p.1 == k then (k, v) else p)
  else cache ++ [(k, v)]

/-- The UPDATE-or-INSERT pair in `set_setting` (an upsert keyed on `key`). -/
def storeSet (store : List SettingRow) (k s : String) (now : Nat) : List SettingRow :=
  if store.any (fun r => r.key == k) then
    store.map (fun r => if r.key == k then { r with value := s, updated_at := now } else r)
  else store ++ [{ key := k, value := s, created_at := now, updated_at := now }]

/-- `SettingsModel.__init__` → `_load_all_settings`: every stored row is
parsed into the cache. -/
def initSettings (store0 : List SettingRow) : SettingsState :=
  { store := store0, cache := store0.map (fun r => (r.key, pyParseValue r.value)) }

/-- `SettingsModel.set_setting`: serialize, upsert the row, then put the
original (unserialized) value into the cache. -/
def set_setting (st : SettingsState) (k : String) (v : Value) (now : Nat) :
    Bool × SettingsState :=
  let s := serialize_value v
  (true, { store := storeSet st.store k s now, cache := cacheSet st.cache k v })

/-- `SettingsModel.get_setting`: cache first; on a miss read the table,
parse, and repopulate the cache; else the default. -/
def get_setting (st : SettingsState) (k : String) (default : Value) :
    Value × SettingsState :=
  match st.cache.lookup k with
  | some v => (v, st)
  | none =>
    match st.store.find? (fun r => r.key == k) with
    | some r =>
      let v := pyParseValue r.value
      (v, { st with cache := cacheSet st.cache k v })
    | none => (default, st)

/-- `SettingsModel.delete_setting`: `DELETE FROM settings WHERE key = ?`;
on an affected row, also drop the cache entry. -/
def delete_setting (st : SettingsState) (k : String) : Bool × SettingsState :=
  let affected : Nat := (st.store.filter (fun r => r.key == k)).length
  let store' := st.store.filter (fun r => !(r.key == k))
  if affected > 0 then
    (true, { store := store', cache := st.cache.filter (fun p => !(p.1 == k)) })
  else (false, { st with store := store' })

end SettingsModel

/-! ### Operation sequences

Reachability for the invariant claims: a state is reachable when it is
produced by a list of repository operations. -/

inductive TagOp where
  | createOp (name color : String) (now : Nat) : TagOp
  | updateOp (tag_id : Nat) (name? color? : Option String) : TagOp

def applyTagOp (db : DB) : TagOp → DB
  | .createOp name color now => (TagModel.create db name color now).2
  | .updateOp tag_id name? color? => (TagModel.update db tag_id name? color?).2

def applyTagOps (ops : List TagOp) (db : DB) : DB :=
  ops.foldl applyTagOp db

inductive NoteOp where
  | createOp (title content : String) (tag_ids : List Nat) (now : Nat) : NoteOp
  | updateOp (note_id : Nat) (title? content? : Option String)
      (tagIds? : Option (List Nat)) (now : Nat) : NoteOp
  | deleteOp (note_id : Nat) (now : Nat) : NoteOp
  | addTagOp (note_id tag_id : Nat) : NoteOp
  | removeTagOp (note_id tag_id : Nat) : NoteOp

def applyNoteOp (db : DB) : NoteOp → DB
  | .createOp title content tag_ids now => (NoteModel.create db title content tag_ids now).2
  | .updateOp note_id t? c? g? now => (NoteModel.update db note_id t? c? g? now).2
  | .deleteOp note_id now => (NoteModel.delete db note_id now).2
  | .addTagOp note_id tag_id => (NoteModel.add_tag_to_note db note_id tag_id).2.1
  | .removeTagOp note_id tag_id => (NoteModel.remove_tag_from_note db note_id tag_id).2.1

def applyNoteOps (ops : List NoteOp) (db : DB) : DB :=
  ops.foldl applyNoteOp db

inductive SettingsOp where
  | setOp (k : String) (v : Value) (now : Nat) : SettingsOp
  | getOp (k : String) (default : Value) : SettingsOp
  | delOp (k : String) : SettingsOp

def applySettingsOp (st : SettingsState) : SettingsOp → SettingsState
  | .setOp k v now => (SettingsModel.set_setting st k v now).2
  | .getOp k d => (SettingsModel.get_setting st k d).2
  | .delOp k => (SettingsModel.delete_setting st k).2

def applySettingsOps (ops : List SettingsOp) (st : SettingsState) : SettingsState :=
  ops.foldl applySettingsOp st

/-! ### Invariants -/

/-- Every association row references an existing, non-soft-deleted note. -/
def NoteTagsLive (db : DB) : Prop :=
  ∀ p ∈ db.note_tags, ∃ n ∈ db.notes, n.id = p.note_id ∧ n.is_deleted = false

/-- Well-formedness of the tags table maintained by the tag repository:
ids are fresh and distinct, names are pairwise distinct, and every stored
name is strip-normalised and non-empty. -/
def TagWF (db : DB) : Prop :=
  (∀ t ∈ db.tags, t.id < db.nextTagId) ∧
  db.tags.Pairwise (fun a b => a.id ≠ b.id) ∧
  db.tags.Pairwise (fun a b => a.name ≠ b.name) ∧
  (∀ t ∈ db.tags, pyStrip t.name = t.name ∧ t.name ≠ "")

/-- The cache/storage relation that actually holds after any operation
sequence: a cached value is backed by a stored row, and it is either the
parse of that row's string (cache filled from storage) or the verbatim
value of the last write (whose serialization is the stored string). -/
def SettingsCacheInv (st : SettingsState) : Prop :=
  ∀ k v, st.cache.lookup k = some v →
    ∃ r, st.store.find? (fun r => r.key == k) = some r ∧
      (v = pyParseValue r.value ∨ r.value = serialize_value v)

/-! ### Concrete states used as inputs for the explicit checks -/

/-- One tag, never associated to any note. -/
def dbUnusedTag : DB :=
  { notes := [],
    tags := [{ id := 1, name := "t", color := "#007ACC", created_at := 0 }],
    note_tags := [], nextNoteId := 1, nextTagId := 2 }

/-- One tag whose only association points at a soft-deleted note. -/
def dbDeletedRef : DB :=
  { notes := [{ id := 1, title := "n", content := "", created_at := 0,
                updated_at := 5, is_deleted := true }],
    tags := [{ id := 1, name := "t", color := "#007ACC", created_at := 0 }],
    note_tags := [{ note_id := 1, tag_id := 1 }],
    nextNoteId := 2, nextTagId := 2 }

/-- One tag referenced by one live note. -/
def dbLiveRef : DB :=
  { notes := [{ id := 1, title := "n", content := "", created_at := 0,
                updated_at := 0, is_deleted := false }],
    tags := [{ id := 1, name := "t", color := "#007ACC", created_at := 0 }],
    note_tags := [{ note_id := 1, tag_id := 1 }],
    nextNoteId := 2, nextTagId := 2 }

/-! ## Helper lemmas -/

theorem dropWhile_dropWhile {α : Type} (p : α → Bool) (l : List α) :
    (l.dropWhile p).dropWhile p = l.dropWhile p := by
  induction l with
  | nil => rfl
  | cons a l ih =>
    by_cases h : p a
    · simpa [List.dropWhile_cons, h] using ih
    · simp [List.dropWhile_cons, h]

theorem head?_dropWhile {α : Type} (p : α → Bool) (l : List α) :
    ∀ c, (l.dropWhile p).head? = some c → p c = false := by
  induction l with
  | nil => intro c h; simp at h
  | cons a l ih =>
    intro c h
    by_cases ha : p a
    · exact ih c (by simpa [List.dropWhile_cons, ha] using h)
    · have h' : a = c := by simpa [List.dropWhile_cons, ha] using h
      rw [← h']
      exact eq_false_of_ne_true ha

theorem getLast?_dropWhile {α : Type} (p : α → Bool) (l : List α) :
    ∀ c, (l.dropWhile p).getLast? = some c → l.getLast? = some c := by
  induction l with
  | nil => intro c h; simp at h
  | cons a l ih =>
    intro c h
    by_cases ha : p a
    · have h' := ih c (by simpa [List.dropWhile_cons, ha] using h)
      have hne : l ≠ [] := by
        intro hnil; rw [hnil] at h'; simp at h'
      cases l with
      | nil => exact absurd rfl hne
      | cons b m => simpa [List.getLast?] using h'
    · simpa [List.dropWhile_cons, ha] using h

theorem dropWhile_eq_self_of_head? {α : Type} (p : α → Bool) (l : List α)
    (h : ∀ c, l.head? = some c → p c = false) : l.dropWhile p = l := by
  cases l with
  | nil => rfl
  | cons a l => simp [List.dropWhile_cons, h a rfl]

theorem stripChars_idem (cs : List Char) : stripChars (stripChars cs) = stripChars cs := by
  unfold stripChars
  have h1 : (((cs.dropWhile isPySpace).reverse.dropWhile isPySpace).reverse).dropWhile
      isPySpace = ((cs.dropWhile isPySpace).reverse.dropWhile isPySpace).reverse := by
    apply dropWhile_eq_self_of_head?
    intro c hc
    rw [List.head?_reverse] at hc
    have hc2 := getLast?_dropWhile isPySpace (cs.dropWhile isPySpace).reverse c hc
    rw [List.getLast?_reverse] at hc2
    exact head?_dropWhile isPySpace cs c hc2
  rw [h1, List.reverse_reverse, dropWhile_dropWhile]

theorem pyStrip_idem (s : String) : pyStrip (pyStrip s) = pyStrip s := by
  unfold pyStrip
  rw [show (String.mk (stripChars s.data)).data = stripChars s.data from rfl,
    stripChars_idem]

/-- Under a pairwise-distinct key function, two members with equal keys are
the same element. -/
theorem eq_of_pairwise_key {α β : Type} (f : α → β) {l : List α}
    (h : l.Pairwise (fun a b => f a ≠ f b)) {a b : α}
    (ha : a ∈ l) (hb : b ∈ l) (hf : f a = f b) : a = b := by
  induction l with
  | nil => simp at ha
  | cons c l ih =>
    rw [List.pairwise_cons] at h
    rcases List.mem_cons.mp ha with rfl | ha' <;>
      rcases List.mem_cons.mp hb with rfl | hb'
    · rfl
    · exact absurd hf (h.1 b hb')
    · exact absurd hf.symm (h.1 a ha')
    · exact ih h.2 ha' hb'

/-! ### Explicit-argument cons lemmas (to keep rewriting deterministic) -/

theorem find?_cons_pos {α : Type} (p : α → Bool) (a : α) (l : List α)
    (h : p a = true) : List.find? p (a :: l) = some a := by
  simp [List.find?, h]

theorem find?_cons_neg {α : Type} (p : α → Bool) (a : α) (l : List α)
    (h : p a = false) : List.find? p (a :: l) = List.find? p l := by
  simp [List.find?, h]

theorem lookup_cons_eq {β : Type} (k pk : String) (pv : β) (l : List (String × β))
    (h : (k == pk) = true) : List.lookup k ((pk, pv) :: l) = some pv := by
  simp [List.lookup, h]

theorem lookup_cons_ne {β : Type} (k pk : String) (pv : β) (l : List (String × β))
    (h : (k == pk) = false) : List.lookup k ((pk, pv) :: l) = List.lookup k l := by
  simp [List.lookup, h]

/-! ### Settings cache/storage lemmas -/

namespace SettingsModel

theorem lookup_map_replace_self (c : List (String × Value)) (k : String) (v : Value)
    (h : c.any (fun p => p.1 == k) = true) :
    (c.map (fun p => if p.1 == k then (k, v) else p)).lookup k = some v := by
  induction c with
  | nil => simp at h
  | cons p c ih =>
    obtain ⟨pk, pv⟩ := p
    simp only [List.map_cons]
    by_cases hp : pk = k
    · have hhead : (if ((pk, pv).1 == k) = true then (k, v) else (pk, pv)) = (k, v) := by
        simp [hp]
      rw [hhead, lookup_cons_eq k k v _ (by simp)]
    · have hhead : (if ((pk, pv).1 == k) = true then (k, v) else (pk, pv)) = (pk, pv) := by
        simp [hp]
      rw [hhead, lookup_cons_ne k pk pv _ (by simpa using fun hc : k = pk => hp hc.symm)]
      apply ih
      simp only [List.any_cons, Bool.or_eq_true, beq_iff_eq] at h
      rcases h with h | h
      · exact absurd h hp
      · simpa using h

theorem lookup_map_replace_other (c : List (String × Value)) (k k' : String) (v : Value)
    (h : k' ≠ k) :
    (c.map (fun p => if p.1 == k then (k, v) else p)).lookup k' = c.lookup k' := by
  induction c with
  | nil => rfl
  | cons p c ih =>
    obtain ⟨pk, pv⟩ := p
    simp only [List.map_cons]
    by_cases hp : pk = k
    · have hhead : (if ((pk, pv).1 == k) = true then (k, v) else (pk, pv)) = (k, v) := by
        simp [hp]
      rw [hhead, lookup_cons_ne k' k v _ (by simpa using h),
        lookup_cons_ne k' pk pv c (by simpa using fun hc : k' = pk => h (hc.trans hp))]
      exact ih
    · have hhead : (if ((pk, pv).1 == k) = true then (k, v) else (pk, pv)) = (pk, pv) := by
        simp [hp]
      rw [hhead]
      by_cases hk' : k' = pk
      · rw [lookup_cons_eq k' pk pv _ (by simpa using hk'),
          lookup_cons_eq k' pk pv _ (by simpa using hk')]
      · rw [lookup_cons_ne k' pk pv _ (by simpa using hk'),
          lookup_cons_ne k' pk pv _ (by simpa using hk')]
        exact ih

theorem lookup_append_right {β : Type} (l : List (String × β)) (k : String) (b : β)
    (h : l.lookup k = none) : (l ++ [(k, b)]).lookup k = some b := by
  induction l with
  | nil => exact lookup_cons_eq k k b [] (by simp)
  | cons p l ih =>
    obtain ⟨pk, pv⟩ := p
    by_cases hp : k = pk
    · rw [lookup_cons_eq k pk pv l (by simpa using hp)] at h
      exact absurd h (by simp)
    · have hk : (k == pk) = false := by simpa using hp
      rw [lookup_cons_ne k pk pv l hk] at h
      rw [List.cons_append, lookup_cons_ne k pk pv _ hk]
      exact ih h

theorem lookup_append_other {β : Type} (l : List (String × β)) (k k' : String) (b : β)
    (h : k' ≠ k) : (l ++ [(k, b)]).lookup k' = l.lookup k' := by
  induction l with
  | nil =>
    rw [List.nil_append, lookup_cons_ne k' k b [] (by simpa using h)]
  | cons p l ih =>
    obtain ⟨pk, pv⟩ := p
    by_cases hp : k' = pk
    · rw [List.cons_append, lookup_cons_eq k' pk pv _ (by simpa using hp),
        lookup_cons_eq k' pk pv _ (by simpa using hp)]
    · rw [List.cons_append, lookup_cons_ne k' pk pv _ (by simpa using hp),
        lookup_cons_ne k' pk pv _ (by simpa using hp)]
      exact ih

theorem lookup_eq_none_of_any_false (c : List (String × Value)) (k : String)
    (h : c.any (fun p => p.1 == k) = false) : c.lookup k = none := by
  induction c with
  | nil => rfl
  | cons p c ih =>
    obtain ⟨pk, pv⟩ := p
    simp only [List.any_cons, Bool.or_eq_false_iff, beq_eq_false_iff_ne] at h
    rw [lookup_cons_ne k pk pv c (by simpa using fun hc : k = pk => h.1 hc.symm)]
    exact ih (by simpa using h.2)

theorem lookup_cacheSet_self (c : List (String × Value)) (k : String) (v : Value) :
    (cacheSet c k v).lookup k = some v := by
  unfold cacheSet
  by_cases h : c.any (fun p => p.1 == k) = true
  · simpa [h] using lookup_map_replace_self c k v h
  · have h' := eq_false_of_ne_true h
    simp only [h', if_false]
    exact lookup_append_right c k v (lookup_eq_none_of_any_false c k h')

theorem lookup_cacheSet_other (c : List (String × Value)) (k k' : String) (v : Value)
    (h : k' ≠ k) : (cacheSet c k v).lookup k' = c.lookup k' := by
  unfold cacheSet
  by_cases hany : c.any (fun p => p.1 == k) = true
  · simpa [hany] using lookup_map_replace_other c k k' v h
  · simpa [eq_false_of_ne_true hany] using lookup_append_other c k k' v h

theorem find?_map_upd_self (store : List SettingRow) (k s : String) (now : Nat)
    (h : store.any (fun r => r.key == k) = true) :
    ∃ r, (store.map
        (fun r => if r.key == k then { r with value := s, updated_at := now } else r)).find?
        (fun r => r.key == k) = some r ∧ r.value = s := by
  induction store with
  | nil => simp at h
  | cons r store ih =>
    simp only [List.map_cons]
    by_cases hr : r.key = k
    · have hhead : (if (r.key == k) = true then
          { r with value := s, updated_at := now } else r)
          = { r with value := s, updated_at := now } := by simp [hr]
      rw [hhead]
      refine ⟨{ r with value := s, updated_at := now }, ?_, rfl⟩
      exact find?_cons_pos (fun (r : SettingRow) => r.key == k) _ _ (by simpa using hr)
    · have hhead : (if (r.key == k) = true then
          { r with value := s, updated_at := now } else r) = r := by simp [hr]
      rw [hhead]
      have h' : store.any (fun r => r.key == k) = true := by
        simp only [List.any_cons, Bool.or_eq_true, beq_iff_eq] at h
        rcases h with h | h
        · exact absurd h hr
        · simpa using h
      obtain ⟨r', hfind, hval⟩ := ih h'
      refine ⟨r', ?_, hval⟩
      rw [find?_cons_neg (fun (r : SettingRow) => r.key == k) _ _ (by simpa using hr)]
      exact hfind

theorem find?_storeSet_self (store : List SettingRow) (k s : String) (now : Nat) :
    ∃ r, (storeSet store k s now).find? (fun r => r.key == k) = some r ∧ r.value = s := by
  unfold storeSet
  by_cases hany : store.any (fun r => r.key == k) = true
  · simpa [hany] using find?_map_upd_self store k s now hany
  · have hnone : store.find? (fun r => r.key == k) = none := by
      rw [List.find?_eq_none]
      intro r hr
      simp only [List.any_eq_true] at hany
      exact fun hk => hany ⟨r, hr, hk⟩
    refine ⟨SettingRow.mk k s now now, ?_, rfl⟩
    rw [eq_false_of_ne_true hany, if_neg (by simp), List.find?_append, hnone,
      find?_cons_pos (fun (r : SettingRow) => r.key == k) (SettingRow.mk k s now now) [] (by simp)]
    rfl

theorem find?_storeSet_other (store : List SettingRow) (k k' s : String) (now : Nat)
    (h : k' ≠ k) :
    (storeSet store k s now).find? (fun r => r.key == k') =
      store.find? (fun r => r.key == k') := by
  unfold storeSet
  by_cases hany : store.any (fun r => r.key == k) = true
  · simp only [hany, if_true]
    clear hany
    induction store with
    | nil => rfl
    | cons r store ih =>
      simp only [List.map_cons]
      by_cases hr : r.key = k
      · have hhead : (if (r.key == k) = true then
            { r with value := s, updated_at := now } else r)
            = { r with value := s, updated_at := now } := by simp [hr]
        rw [hhead]
        have hbool : (r.key == k') = false := by
          simpa using fun hc : r.key = k' => h (hc.symm.trans hr)
        rw [find?_cons_neg (fun (r : SettingRow) => r.key == k')
            { r with value := s, updated_at := now } _ hbool,
          find?_cons_neg (fun (r : SettingRow) => r.key == k') r store hbool]
        exact ih
      · have hhead : (if (r.key == k) = true then
            { r with value := s, updated_at := now } else r) = r := by simp [hr]
        rw [hhead]
        by_cases hk' : r.key = k'
        · rw [find?_cons_pos (fun (r : SettingRow) => r.key == k') r _ (by simpa using hk'),
            find?_cons_pos (fun (r : SettingRow) => r.key == k') r store (by simpa using hk')]
        · rw [find?_cons_neg (fun (r : SettingRow) => r.key == k') r _ (by simpa using hk'),
            find?_cons_neg (fun (r : SettingRow) => r.key == k') r store (by simpa using hk')]
          exact ih
  · have hbool : ((SettingRow.mk k s now now).key == k') = false := by
      simpa using fun hc : k = k' => h hc.symm
    rw [eq_false_of_ne_true hany, if_neg (by simp), List.find?_append,
      find?_cons_neg (fun (r : SettingRow) => r.key == k') (SettingRow.mk k s now now) [] hbool]
    simp

theorem lookup_filter_ne (c : List (String × Value)) (k k' : String) (h : k' ≠ k) :
    (c.filter (fun p => !(p.1 == k))).lookup k' = c.lookup k' := by
  induction c with
  | nil => rfl
  | cons p c ih =>
    obtain ⟨pk, pv⟩ := p
    by_cases hp : pk = k
    · have hcond : (!((pk, pv).1 == k)) = false := by simp [hp]
      rw [List.filter_cons, hcond, if_neg (by simp),
        lookup_cons_ne k' pk pv c (by simpa using fun hc : k' = pk => h (hc.trans hp))]
      exact ih
    · have hcond : (!((pk, pv).1 == k)) = true := by simp [hp]
      rw [List.filter_cons, hcond, if_pos rfl]
      by_cases hk' : k' = pk
      · rw [lookup_cons_eq k' pk pv _ (by simpa using hk'),
          lookup_cons_eq k' pk pv c (by simpa using hk')]
      · rw [lookup_cons_ne k' pk pv _ (by simpa using hk'),
          lookup_cons_ne k' pk pv c (by simpa using hk')]
        exact ih

theorem find?_filter_ne (store : List SettingRow) (k k' : String) (h : k' ≠ k) :
    (store.filter (fun r => !(r.key == k))).find? (fun r => r.key == k') =
      store.find? (fun r => r.key == k') := by
  induction store with
  | nil => rfl
  | cons r store ih =>
    by_cases hr : r.key = k
    · have hcond : (!(r.key == k)) = false := by simp [hr]
      rw [List.filter_cons, hcond, if_neg (by simp),
        find?_cons_neg (fun (r : SettingRow) => r.key == k') r store
          (by simpa using fun hc : r.key = k' => h (hc.symm.trans hr))]
      exact ih
    · have hcond : (!(r.key == k)) = true := by simp [hr]
      rw [List.filter_cons, hcond, if_pos rfl]
      by_cases hk' : r.key = k'
      · rw [find?_cons_pos (fun (r : SettingRow) => r.key == k') r _ (by simpa using hk'),
          find?_cons_pos (fun (r : SettingRow) => r.key == k') r store (by simpa using hk')]
      · rw [find?_cons_neg (fun (r : SettingRow) => r.key == k') r _ (by simpa using hk'),
          find?_cons_neg (fun (r : SettingRow) => r.key == k') r store (by simpa using hk')]
        exact ih

theorem lookup_filter_self (c : List (String × Value)) (k : String) :
    (c.filter (fun p => !(p.1 == k))).lookup k = none := by
  induction c with
  | nil => rfl
  | cons p c ih =>
    obtain ⟨pk, pv⟩ := p
    by_cases hp : pk = k
    · have hcond : (!((pk, pv).1 == k)) = false := by simp [hp]
      rw [List.filter_cons, hcond, if_neg (by simp)]
      exact ih
    · have hcond : (!((pk, pv).1 == k)) = true := by simp [hp]
      rw [List.filter_cons, hcond, if_pos rfl,
        lookup_cons_ne k pk pv _ (by simpa using fun hc : k = pk => hp hc.symm)]
      exact ih

end SettingsModel

/-! ### The settings cache/storage invariant -/

namespace SettingsModel

theorem lookup_map_parse (store0 : List SettingRow) (k : String) :
    (store0.map (fun r => (r.key, pyParseValue r.value))).lookup k =
      (store0.find? (fun r => r.key == k)).map (fun r => pyParseValue r.value) := by
  induction store0 with
  | nil => rfl
  | cons r store ih =>
    simp only [List.map_cons]
    by_cases hk : r.key = k
    · rw [lookup_cons_eq k r.key (pyParseValue r.value) _ (by simpa using hk.symm),
        find?_cons_pos (fun (r : SettingRow) => r.key == k) r store (by simpa using hk)]
      rfl
    · rw [lookup_cons_ne k r.key (pyParseValue r.value) _
          (by simpa using fun hc : k = r.key => hk hc.symm),
        find?_cons_neg (fun (r : SettingRow) => r.key == k) r store (by simpa using hk)]
      exact ih

theorem inv_init (store0 : List SettingRow) : SettingsCacheInv (initSettings store0) := by
  intro k v hlook
  unfold initSettings at hlook
  rw [lookup_map_parse store0 k] at hlook
  cases hf : store0.find? (fun r => r.key == k) with
  | none => rw [hf] at hlook; simp at hlook
  | some r =>
    rw [hf] at hlook
    refine ⟨r, hf, Or.inl ?_⟩
    simpa using hlook.symm

theorem inv_set (st : SettingsState) (k : String) (v : Value) (now : Nat)
    (h : SettingsCacheInv st) : SettingsCacheInv (set_setting st k v now).2 := by
  intro k' v' hlook
  unfold set_setting at hlook ⊢
  by_cases hk : k' = k
  · subst hk
    rw [lookup_cacheSet_self st.cache k' v] at hlook
    obtain ⟨r, hr, hval⟩ := find?_storeSet_self st.store k' (serialize_value v) now
    refine ⟨r, hr, Or.inr ?_⟩
    have hv : v' = v := by simpa using hlook.symm
    rw [hv, hval]
  · rw [lookup_cacheSet_other st.cache k k' v hk] at hlook
    obtain ⟨r, hr, hd⟩ := h k' v' hlook
    exact ⟨r, by rw [find?_storeSet_other st.store k k' (serialize_value v) now hk]; exact hr, hd⟩

theorem inv_get (st : SettingsState) (k : String) (d : Value)
    (h : SettingsCacheInv st) : SettingsCacheInv (get_setting st k d).2 := by
  unfold get_setting
  cases hc : st.cache.lookup k with
  | some v => exact h
  | none =>
    cases hf : st.store.find? (fun r => r.key == k) with
    | none => exact h
    | some r =>
      intro k' v' hlook
      simp only at hlook
      by_cases hk : k' = k
      · subst hk
        rw [lookup_cacheSet_self st.cache k' (pyParseValue r.value)] at hlook
        refine ⟨r, hf, Or.inl ?_⟩
        simpa using hlook.symm
      · rw [lookup_cacheSet_other st.cache k k' (pyParseValue r.value) hk] at hlook
        exact h k' v' hlook

theorem inv_del (st : SettingsState) (k : String)
    (h : SettingsCacheInv st) : SettingsCacheInv (delete_setting st k).2 := by
  unfold delete_setting
  by_cases haff : ((st.store.filter (fun r => r.key == k)).length > 0)
  · simp only [haff, if_pos, if_true]
    intro k' v' hlook
    by_cases hk : k' = k
    · subst hk
      rw [lookup_filter_self st.cache k'] at hlook
      exact absurd hlook (by simp)
    · rw [lookup_filter_ne st.cache k k' hk] at hlook
      obtain ⟨r, hr, hd⟩ := h k' v' hlook
      exact ⟨r, by rw [find?_filter_ne st.store k k' hk]; exact hr, hd⟩
  · simp only [haff, if_neg, if_false]
    intro k' v' hlook
    obtain ⟨r, hr, hd⟩ := h k' v' hlook
    by_cases hk : k' = k
    · subst hk
      have hempty : st.store.filter (fun r => r.key == k') = [] := by
        cases hfil : st.store.filter (fun r => r.key == k') with
        | nil => rfl
        | cons a l => rw [hfil] at haff; simp at haff
      have hmem := List.mem_of_find?_eq_some hr
      have hkey := List.find?_some hr
      have : r ∈ st.store.filter (fun r => r.key == k') :=
        List.mem_filter.mpr ⟨hmem, hkey⟩
      rw [hempty] at this
      simp at this
    · exact ⟨r, by rw [find?_filter_ne st.store k k' hk]; exact hr, hd⟩

theorem inv_op (st : SettingsState) (op : SettingsOp)
    (h : SettingsCacheInv st) : SettingsCacheInv (applySettingsOp st op) := by
  cases op with
  | setOp k v now => exact inv_set st k v now h
  | getOp k d => exact inv_get st k d h
  | delOp k => exact inv_del st k h

theorem inv_ops (ops : List SettingsOp) (st : SettingsState)
    (h : SettingsCacheInv st) : SettingsCacheInv (applySettingsOps ops st) := by
  induction ops generalizing st with
  | nil => exact h
  | cons op ops ih => exact ih (applySettingsOp st op) (inv_op st op h)

end SettingsModel

/-! ## Claim C2 -/

/-- C2, counterexample: after `set_setting("k", "true")` (the Python string
`"true"`), the cache holds the string value while parsing the stored
serialized text yields the boolean `True` — cache and storage diverge, so
the claim as stated is false. -/
theorem c2_cache_storage_diverge_counterexample :
    ((SettingsModel.set_setting (SettingsModel.initSettings []) "k"
        (Value.vStr "true") 0).2.cache.lookup "k" = some (Value.vStr "true"))
    ∧ (((SettingsModel.set_setting (SettingsModel.initSettings []) "k"
        (Value.vStr "true") 0).2.store.find? (fun r => r.key == "k")).map
          (fun r => r.value) = some "true")
    ∧ pyParseValue "true" = Value.vBool true
    ∧ Value.vStr "true" ≠ Value.vBool true := by
  refine ⟨rfl, rfl, rfl, fun h => ?_⟩
  exact Value.noConfusion h

/-- C2, amended: after any sequence of set/get/delete operations from a
freshly loaded model, every cached value is backed by a stored row and is
either the parse of the stored string or the verbatim last-written value
(whose serialization is the stored string).  Exact cache = parse(storage)
agreement therefore holds precisely for written values fixed by
parse ∘ serialize — e.g. booleans and integers — but not for strings such
as `"true"`. -/
theorem c2_cache_storage_relation (ops : List SettingsOp) (store0 : List SettingRow) :
    SettingsCacheInv (applySettingsOps ops (SettingsModel.initSettings store0)) :=
  SettingsModel.inv_ops ops _ (SettingsModel.inv_init store0)

/-- Witness for C2 (amended), at a concrete operation sequence. -/
theorem c2_cache_storage_relation_witness :
    SettingsCacheInv (applySettingsOps
      [SettingsOp.setOp "a" (Value.vInt 5) 0, SettingsOp.getOp "b" Value.vNone]
      (SettingsModel.initSettings [])) :=
  c2_cache_storage_relation _ _

/-! ## Claim C3 -/

/-- C3: `set_setting(k, v)` followed by `get_setting(k)` on the same model
returns `v` itself, for every value (the read is served from the cache,
which `set_setting` filled with the unserialized value). -/
theorem c3_set_then_get_roundtrip (st : SettingsState) (k : String) (v : Value)
    (now : Nat) (d : Value) :
    (SettingsModel.set_setting st k v now).1 = true ∧
    (SettingsModel.get_setting (SettingsModel.set_setting st k v now).2 k d).1 = v := by
  refine ⟨rfl, ?_⟩
  unfold SettingsModel.get_setting SettingsModel.set_setting
  simp only [SettingsModel.lookup_cacheSet_self]

/-! ## Claim C1 -/

/-- C1: `get_unused_tags` evaluated against its contract.  A tag with zero
non-deleted references is omitted from the result (`dbUnusedTag`, and
`dbDeletedRef` shows the underlying join ignores soft deletion), while a
tag referenced by a live note is returned: the implementation returns the
tags with at least one `note_tags` row — the complement of what the spec
(and the method's own docstring) describe. -/
theorem c1_get_unused_tags_returns_used_tags :
    tagNoteCount dbUnusedTag 1 = 0
    ∧ TagModel.get_unused_tags dbUnusedTag = []
    ∧ tagNoteCount dbDeletedRef 1 = 0
    ∧ TagModel.get_unused_tags dbDeletedRef = dbDeletedRef.tags
    ∧ tagNoteCount dbLiveRef 1 = 1
    ∧ TagModel.get_unused_tags dbLiveRef = dbLiveRef.tags := by
  exact ⟨rfl, rfl, rfl, rfl, rfl, rfl⟩

/-! ## Claim C4 -/

/-- C4: for a tag referenced by at least one non-deleted note, the safe
`delete` always fails and leaves the database unchanged, while
`force_delete` succeeds and leaves no tag row and no association row for
that tag id. -/
theorem c4_referenced_tag_delete_vs_force_delete
    (db : DB) (t : TagRow) (n : NoteRow)
    (ht : t ∈ db.tags) (hn : n ∈ db.notes) (hlive : n.is_deleted = false)
    (href : ({ note_id := n.id, tag_id := t.id } : NoteTagRow) ∈ db.note_tags) :
    TagModel.delete db t.id = (false, db)
    ∧ (TagModel.force_delete db t.id).1 = true
    ∧ (∀ u ∈ (TagModel.force_delete db t.id).2.tags, u.id ≠ t.id)
    ∧ (∀ p ∈ (TagModel.force_delete db t.id).2.note_tags, p.tag_id ≠ t.id) := by
  obtain ⟨u, hu⟩ : ∃ u, TagModel.get_by_id db t.id = some u := by
    cases hf : db.tags.find? (fun u => u.id == t.id) with
    | none =>
      have := List.find?_eq_none.mp hf t ht
      simp at this
    | some u => exact ⟨u, hf⟩
  have hcount : 0 < tagNoteCount db t.id := by
    unfold tagNoteCount
    apply List.length_pos.mpr
    apply List.ne_nil_of_mem
    apply List.mem_dedup.mpr
    refine List.mem_map.mpr ⟨{ note_id := n.id, tag_id := t.id }, ?_, rfl⟩
    refine List.mem_filter.mpr ⟨href, ?_⟩
    have hlive' : liveNoteExists db n.id = true := by
      unfold liveNoteExists
      exact List.any_eq_true.mpr ⟨n, hn, by simp [hlive]⟩
    simp [hlive']
  have haff : 0 < (db.tags.filter (fun u => u.id == t.id)).length := by
    apply List.length_pos.mpr
    apply List.ne_nil_of_mem
    exact List.mem_filter.mpr ⟨ht, by simp⟩
  refine ⟨?_, ?_, ?_, ?_⟩
  · unfold TagModel.delete
    rw [hu]
    simp [hcount]
  · unfold TagModel.force_delete
    rw [hu]
    simp [haff]
  · intro v hv
    unfold TagModel.force_delete at hv
    rw [hu] at hv
    simp [haff] at hv
    exact hv.2
  · intro p hp
    unfold TagModel.force_delete at hp
    rw [hu] at hp
    simp [haff] at hp
    exact hp.2

/-- Witness for C4 at a concrete database. -/
theorem c4_witness :
    TagModel.delete dbLiveRef 1 = (false, dbLiveRef)
    ∧ (TagModel.force_delete dbLiveRef 1).1 = true
    ∧ (∀ u ∈ (TagModel.force_delete dbLiveRef 1).2.tags, u.id ≠ 1)
    ∧ (∀ p ∈ (TagModel.force_delete dbLiveRef 1).2.note_tags, p.tag_id ≠ 1) :=
  c4_referenced_tag_delete_vs_force_delete dbLiveRef
    { id := 1, name := "t", color := "#007ACC", created_at := 0 }
    { id := 1, title := "n", content := "", created_at := 0,
      updated_at := 0, is_deleted := false }
    (by decide) (by decide) rfl (by decide)

/-! ## Claim C9 -/

/-- C9: an invalid color is silently replaced by the default `#007ACC` on
`create` (which succeeds whenever the name itself is acceptable), whereas
`update` with an invalid color fails the call and leaves the table
unchanged. -/
theorem c9_invalid_color_create_defaults_update_fails
    (db : DB) (name color : String) (now : Nat) (tid : Nat) (name? : Option String)
    (hbad : validate_color color = false) :
    (pyStrip name ≠ "" → TagModel.get_by_name db (pyStrip name) = none →
      TagModel.create db name color now =
        (some db.nextTagId,
         { db with
             tags := db.tags ++ [TagRow.mk db.nextTagId (pyStrip name) "#007ACC" now],
             nextTagId := db.nextTagId + 1 }))
    ∧ TagModel.update db tid name? (some color) = (false, db) := by
  constructor
  · intro hne hnone
    unfold TagModel.create
    simp [hne, hnone, hbad]
  · cases hfind : TagModel.get_by_id db tid with
    | none => simp [TagModel.update, hfind]
    | some u =>
      cases name? with
      | none => simp [TagModel.update, hfind, hbad]
      | some raw =>
        by_cases hraw : pyStrip raw = ""
        · simp [TagModel.update, hfind, hraw]
        · cases hgn : TagModel.get_by_name db (pyStrip raw) with
          | none => simp [TagModel.update, hfind, hraw, hgn, hbad]
          | some other =>
            by_cases hoth : other.id = tid
            · simp [TagModel.update, hfind, hraw, hgn, hoth, hbad]
            · simp [TagModel.update, hfind, hraw, hgn, hoth]

/-- Witness for C9 at a concrete database and the invalid color "red". -/
theorem c9_witness :
    TagModel.create emptyDB "a" "red" 0 =
      (some 1,
       { notes := [], tags := [{ id := 1, name := "a", color := "#007ACC", created_at := 0 }],
         note_tags := [], nextNoteId := 1, nextTagId := 2 })
    ∧ TagModel.update emptyDB 1 none (some "red") = (false, emptyDB) := by
  have h := c9_invalid_color_create_defaults_update_fails emptyDB "a" "red" 0 1 none rfl
  exact ⟨h.1 (by decide) rfl, h.2⟩

/-! ## Claim C6 -/

/-- C6: the per-association helpers are idempotent — adding an existing
association is a no-op reported as "no row changed" (`false`) that leaves
the table untouched — and each helper emits its event exactly when the
`note_tags` table actually changed. -/
theorem c6_tag_association_idempotent_and_events (db : DB) (nid tid : Nat) :
    ((NoteModel.get_by_id db nid).isSome = true →
      ({ note_id := nid, tag_id := tid } : NoteTagRow) ∈ db.note_tags →
      NoteModel.add_tag_to_note db nid tid = (false, db, []))
    ∧ ((NoteModel.add_tag_to_note db nid tid).2.2 ≠ [] ↔
        (NoteModel.add_tag_to_note db nid tid).2.1.note_tags ≠ db.note_tags)
    ∧ ((NoteModel.remove_tag_from_note db nid tid).2.2 ≠ [] ↔
        (NoteModel.remove_tag_from_note db nid tid).2.1.note_tags ≠ db.note_tags) := by
  refine ⟨?_, ?_, ?_⟩
  · intro hsome hmem
    obtain ⟨u, hu⟩ := Option.isSome_iff_exists.mp hsome
    have hany : db.note_tags.any (fun p => p.note_id == nid && p.tag_id == tid) = true :=
      List.any_eq_true.mpr ⟨_, hmem, by simp⟩
    unfold NoteModel.add_tag_to_note
    rw [hu]
    by_cases htag : tagExists db tid
    · simp [htag, hany]
    · simp [htag]
  · cases hfind : NoteModel.get_by_id db nid with
    | none => simp [NoteModel.add_tag_to_note, hfind]
    | some u =>
      by_cases htag : tagExists db tid
      · by_cases hany : db.note_tags.any (fun p => p.note_id == nid && p.tag_id == tid) = true
        · simp [NoteModel.add_tag_to_note, hfind, htag, hany]
        · have hgrow : db.note_tags ++ [({ note_id := nid, tag_id := tid } : NoteTagRow)]
              ≠ db.note_tags := by
            intro hcontr
            have := congrArg List.length hcontr
            simp at this
          simp [NoteModel.add_tag_to_note, hfind, htag, hany, hgrow]
      · simp [NoteModel.add_tag_to_note, hfind, htag]
  · by_cases haff :
        0 < (db.note_tags.filter (fun p => p.note_id == nid && p.tag_id == tid)).length
    · have hlt : (db.note_tags.filter
          (fun p => !(p.note_id == nid && p.tag_id == tid))).length
          < db.note_tags.length := by
        rw [List.length_filter_lt_length_iff_exists]
        have hne := List.length_pos.mp haff
        cases hfil : db.note_tags.filter (fun p => p.note_id == nid && p.tag_id == tid) with
        | nil => exact absurd hfil hne
        | cons q l =>
          have hq : q ∈ db.note_tags.filter (fun p => p.note_id == nid && p.tag_id == tid) := by
            rw [hfil]; exact List.mem_cons_self q l
          have hq' := List.mem_filter.mp hq
          exact ⟨q, hq'.1, by simp [hq'.2]⟩
      have hchange : db.note_tags.filter (fun p => !(p.note_id == nid && p.tag_id == tid))
          ≠ db.note_tags := by
        intro hcontr
        rw [hcontr] at hlt
        exact lt_irrefl _ hlt
      have hrem : NoteModel.remove_tag_from_note db nid tid =
          (true,
           { db with note_tags :=
              db.note_tags.filter (fun p => !(p.note_id == nid && p.tag_id == tid)) },
           ["note_tag_removed"]) := by
        unfold NoteModel.remove_tag_from_note
        simp [haff]
      rw [hrem]
      exact iff_of_true (by simp) hchange
    · have hall : ∀ p ∈ db.note_tags, ¬((p.note_id == nid && p.tag_id == tid) = true) := by
        intro p hp hcontr
        have : p ∈ db.note_tags.filter (fun p => p.note_id == nid && p.tag_id == tid) :=
          List.mem_filter.mpr ⟨hp, hcontr⟩
        have := List.length_pos.mpr (List.ne_nil_of_mem this)
        exact haff this
      have hsame : db.note_tags.filter (fun p => !(p.note_id == nid && p.tag_id == tid))
          = db.note_tags := by
        rw [List.filter_eq_self]
        intro p hp
        exact eq_true_of_ne_false (by simpa using hall p hp)
      have hrem : NoteModel.remove_tag_from_note db nid tid =
          (false,
           { db with note_tags :=
              db.note_tags.filter (fun p => !(p.note_id == nid && p.tag_id == tid)) },
           ([] : List String)) := by
        unfold NoteModel.remove_tag_from_note
        simp [haff]
      rw [hrem]
      exact iff_of_false (by simp) (fun hcontr => hcontr hsame)

/-- Witness for C6: re-adding the existing association of `dbLiveRef` is a
no-op reported as "no row changed" with no event. -/
theorem c6_witness :
    NoteModel.add_tag_to_note dbLiveRef 1 1 = (false, dbLiveRef, []) :=
  (c6_tag_association_idempotent_and_events dbLiveRef 1 1).1 (by decide) (by decide)

/-! ## Claim C7 -/

/-- C7: deleting a live note succeeds, marking it deleted with a refreshed
`updated_at` and clearing its associations; a second delete of the same id
fails with "not found" and leaves the state unchanged. -/
theorem c7_note_delete_twice (db : DB) (n : NoteRow) (now now2 : Nat)
    (hids : db.notes.Pairwise (fun a b => a.id ≠ b.id))
    (hn : n ∈ db.notes) (hlive : n.is_deleted = false) :
    (NoteModel.delete db n.id now).1 = true
    ∧ (∀ m ∈ (NoteModel.delete db n.id now).2.notes,
        m.id = n.id → m.is_deleted = true ∧ m.updated_at = now)
    ∧ (∀ p ∈ (NoteModel.delete db n.id now).2.note_tags, p.note_id ≠ n.id)
    ∧ NoteModel.delete (NoteModel.delete db n.id now).2 n.id now2 =
        (false, (NoteModel.delete db n.id now).2) := by
  obtain ⟨u, hu⟩ : ∃ u, NoteModel.get_by_id db n.id = some u := by
    cases hf : db.notes.find? (fun m => m.id == n.id && !m.is_deleted) with
    | none =>
      have := List.find?_eq_none.mp hf n hn
      simp [hlive] at this
    | some u => exact ⟨u, hf⟩
  have haff : 0 < (db.notes.filter (fun m => m.id == n.id && !m.is_deleted)).length := by
    apply List.length_pos.mpr
    apply List.ne_nil_of_mem
    exact List.mem_filter.mpr ⟨hn, by simp [hlive]⟩
  have hdel : NoteModel.delete db n.id now =
      (true, NoteModel._clear_note_tags
        { db with
          notes := db.notes.map
            (fun m => if m.id == n.id && !m.is_deleted then
              { m with is_deleted := true, updated_at := now } else m) } n.id) := by
    unfold NoteModel.delete
    rw [hu]
    simp [haff]
  refine ⟨by rw [hdel], ?_, ?_, ?_⟩
  · intro m hm hmid
    rw [hdel] at hm
    unfold NoteModel._clear_note_tags at hm
    simp only [List.mem_map] at hm
    obtain ⟨m0, hm0, hm0eq⟩ := hm
    by_cases hmatch : (m0.id == n.id && !m0.is_deleted) = true
    · rw [if_pos hmatch] at hm0eq
      rw [← hm0eq]
      exact ⟨rfl, rfl⟩
    · rw [if_neg hmatch] at hm0eq
      subst hm0eq
      have hm0n : m0 = n := eq_of_pairwise_key (fun m => m.id) hids hm0 hn hmid
      rw [hm0n, hlive] at hmatch
      simp at hmatch
  · intro p hp
    rw [hdel] at hp
    unfold NoteModel._clear_note_tags at hp
    simp only [List.mem_filter] at hp
    intro hcontr
    rw [hcontr] at hp
    simp at hp
  · have hnone : NoteModel.get_by_id (NoteModel.delete db n.id now).2 n.id = none := by
      unfold NoteModel.get_by_id
      rw [List.find?_eq_none]
      intro m hm
      rw [hdel] at hm
      unfold NoteModel._clear_note_tags at hm
      simp only [List.mem_map] at hm
      obtain ⟨m0, hm0, hm0eq⟩ := hm
      by_cases hmatch : (m0.id == n.id && !m0.is_deleted) = true
      · rw [if_pos hmatch] at hm0eq
        rw [← hm0eq]
        simp
      · rw [if_neg hmatch] at hm0eq
        subst hm0eq
        intro hpred
        simp only [Bool.and_eq_true, beq_iff_eq, Bool.not_eq_true] at hpred
        have hm0n : m0 = n := eq_of_pairwise_key (fun m => m.id) hids hm0 hn hpred.1
        rw [hm0n, hlive] at hmatch
        simp at hmatch
    generalize hdb2 : (NoteModel.delete db n.id now).2 = db2 at hnone ⊢
    unfold NoteModel.delete
    rw [hnone]

/-- Witness for C7 at a concrete database. -/
theorem c7_witness :
    (NoteModel.delete dbLiveRef 1 7).1 = true
    ∧ (∀ m ∈ (NoteModel.delete dbLiveRef 1 7).2.notes,
        m.id = 1 → m.is_deleted = true ∧ m.updated_at = 7)
    ∧ (∀ p ∈ (NoteModel.delete dbLiveRef 1 7).2.note_tags, p.note_id ≠ 1)
    ∧ NoteModel.delete (NoteModel.delete dbLiveRef 1 7).2 1 9 =
        (false, (NoteModel.delete dbLiveRef 1 7).2) :=
  c7_note_delete_twice dbLiveRef
    { id := 1, title := "n", content := "", created_at := 0,
      updated_at := 0, is_deleted := false }
    7 9 (by simp [dbLiveRef]) (by decide) rfl

/-! ## Claim C8 -/

/-- C8: for a title that does not strip to empty, `create` then `get` on
the returned id yields the stripped title, the given content, a live row,
and equal `created_at`/`updated_at`. -/
theorem c8_create_then_get (db : DB) (title content : String) (now : Nat)
    (hfresh : ∀ m ∈ db.notes, m.id < db.nextNoteId)
    (htitle : pyStrip title ≠ "") :
    (NoteModel.create db title content [] now).1 = some db.nextNoteId
    ∧ NoteModel.get_by_id (NoteModel.create db title content [] now).2 db.nextNoteId =
        some (NoteRow.mk db.nextNoteId (pyStrip title) content now now false) := by
  have hcreate : NoteModel.create db title content [] now =
      (some db.nextNoteId,
       { db with
         notes := db.notes ++ [NoteRow.mk db.nextNoteId (pyStrip title) content now now false],
         nextNoteId := db.nextNoteId + 1 }) := by
    unfold NoteModel.create
    simp [htitle]
  refine ⟨by rw [hcreate], ?_⟩
  rw [hcreate]
  unfold NoteModel.get_by_id
  have hold : db.notes.find?
      (fun m => m.id == db.nextNoteId && !m.is_deleted) = none := by
    rw [List.find?_eq_none]
    intro m hm hpred
    simp only [Bool.and_eq_true, beq_iff_eq] at hpred
    exact absurd hpred.1 (Nat.ne_of_lt (hfresh m hm))
  simp only [List.find?_append, hold, Option.none_or]
  rw [find?_cons_pos (fun (m : NoteRow) => m.id == db.nextNoteId && !m.is_deleted)
    (NoteRow.mk db.nextNoteId (pyStrip title) content now now false) [] (by simp)]

/-- Witness for C8 on the empty database. -/
theorem c8_witness :
    (NoteModel.create emptyDB " hello " "body" [] 3).1 = some 1
    ∧ NoteModel.get_by_id (NoteModel.create emptyDB " hello " "body" [] 3).2 1 =
        some (NoteRow.mk 1 (pyStrip " hello ") "body" 3 3 false) :=
  c8_create_then_get emptyDB " hello " "body" 3 (by simp [emptyDB]) (by decide)

/-! ## Claim C10: note_tags rows always reference live notes -/

theorem insertPairs_mem (nid : Nat) (tids : List Nat) :
    ∀ rows, ∀ p ∈ NoteModel.insertPairs rows nid tids, p ∈ rows ∨ p.note_id = nid := by
  induction tids with
  | nil => intro rows p hp; exact Or.inl hp
  | cons t ts ih =>
    intro rows p hp
    have hstep : NoteModel.insertPairs rows nid (t :: ts) =
        NoteModel.insertPairs
          (if rows.any (fun q => q.note_id == nid && q.tag_id == t) then rows
           else rows ++ [{ note_id := nid, tag_id := t }]) nid ts := rfl
    rw [hstep] at hp
    rcases ih _ p hp with hmem | hid
    · by_cases hany : rows.any (fun q => q.note_id == nid && q.tag_id == t) = true
      · rw [if_pos hany] at hmem
        exact Or.inl hmem
      · rw [if_neg hany] at hmem
        rcases List.mem_append.mp hmem with h1 | h1
        · exact Or.inl h1
        · right
          have : p = { note_id := nid, tag_id := t } := by simpa using h1
          rw [this]
    · exact Or.inr hid

theorem live_add_note_tags (db : DB) (nid : Nat) (tids : List Nat)
    (h : NoteTagsLive db)
    (hnote : ∃ m ∈ db.notes, m.id = nid ∧ m.is_deleted = false) :
    NoteTagsLive (NoteModel._add_note_tags db nid tids) := by
  unfold NoteModel._add_note_tags
  by_cases h0 : tids = []
  · rw [if_pos h0]; exact h
  · rw [if_neg h0]
    by_cases hc : (tids.all (tagExists db) && db.notes.any (fun n => n.id == nid)) = true
    · rw [if_pos hc]
      intro p hp
      rcases insertPairs_mem nid tids db.note_tags p hp with hmem | hid
      · exact h p hmem
      · obtain ⟨m, hm, hmid, hmd⟩ := hnote
        exact ⟨m, hm, hmid.trans hid.symm, hmd⟩
    · rw [if_neg hc]; exact h

theorem live_clear_note_tags (db : DB) (nid : Nat) (h : NoteTagsLive db) :
    NoteTagsLive (NoteModel._clear_note_tags db nid) := by
  intro p hp
  unfold NoteModel._clear_note_tags at hp
  exact h p (List.mem_filter.mp hp).1

theorem live_update_note_tags (db : DB) (nid : Nat) (tids : List Nat)
    (h : NoteTagsLive db)
    (hnote : ∃ m ∈ db.notes, m.id = nid ∧ m.is_deleted = false) :
    NoteTagsLive (NoteModel._update_note_tags db nid tids) := by
  unfold NoteModel._update_note_tags
  by_cases h0 : tids ≠ []
  · rw [if_pos h0]
    exact live_add_note_tags _ nid tids (live_clear_note_tags db nid h) hnote
  · rw [if_neg h0]
    exact live_clear_note_tags db nid h

theorem live_create (db : DB) (title content : String) (tids : List Nat) (now : Nat)
    (h : NoteTagsLive db) :
    NoteTagsLive (NoteModel.create db title content tids now).2 := by
  unfold NoteModel.create
  by_cases htitle : pyStrip title = ""
  · simp only [htitle, if_pos, if_true]
    exact h
  · simp only [htitle, if_neg, if_false, ite_false]
    have h1 : NoteTagsLive
        { db with
          notes := db.notes ++ [NoteRow.mk db.nextNoteId (pyStrip title) content now now false],
          nextNoteId := db.nextNoteId + 1 } := by
      intro p hp
      obtain ⟨m, hm, hmid, hmd⟩ := h p hp
      exact ⟨m, List.mem_append_left _ hm, hmid, hmd⟩
    by_cases htids : tids ≠ []
    · rw [if_pos htids]
      refine live_add_note_tags _ db.nextNoteId tids h1 ?_
      refine ⟨NoteRow.mk db.nextNoteId (pyStrip title) content now now false, ?_, rfl, rfl⟩
      exact List.mem_append_right _ (List.mem_singleton.mpr rfl)
    · rw [if_neg htids]
      exact h1

theorem live_delete (db : DB) (nid : Nat) (now : Nat) (h : NoteTagsLive db) :
    NoteTagsLive (NoteModel.delete db nid now).2 := by
  unfold NoteModel.delete
  cases hfind : NoteModel.get_by_id db nid with
  | none => exact h
  | some u =>
    by_cases haff : 0 < (db.notes.filter (fun m => m.id == nid && !m.is_deleted)).length
    · simp only [haff, if_pos, if_true]
      intro p hp
      unfold NoteModel._clear_note_tags at hp
      have hp' := List.mem_filter.mp hp
      have hpmem : p ∈ db.note_tags := hp'.1
      have hpne : p.note_id ≠ nid := by simpa using hp'.2
      obtain ⟨m, hm, hmid, hmd⟩ := h p hpmem
      have hcond : (m.id == nid && !m.is_deleted) = false := by
        have : m.id ≠ nid := fun hc => hpne (hc ▸ hmid.symm ▸ rfl)
        simp [hmid, hpne]
      refine ⟨m, ?_, hmid, hmd⟩
      refine List.mem_map.mpr ⟨m, hm, ?_⟩
      rw [hcond]
      simp
    · simp only [haff, if_neg, if_false, ite_false]
      have hnomatch : ∀ m ∈ db.notes, (m.id == nid && !m.is_deleted) = false := by
        intro m hm
        by_contra hcontr
        have htrue : (m.id == nid && !m.is_deleted) = true := by
          cases hb : (m.id == nid && !m.is_deleted) with
          | false => exact absurd hb hcontr
          | true => rfl
        have : m ∈ db.notes.filter (fun m => m.id == nid && !m.is_deleted) :=
          List.mem_filter.mpr ⟨hm, htrue⟩
        exact haff (List.length_pos.mpr (List.ne_nil_of_mem this))
      intro p hp
      obtain ⟨m, hm, hmid, hmd⟩ := h p hp
      refine ⟨m, ?_, hmid, hmd⟩
      refine List.mem_map.mpr ⟨m, hm, ?_⟩
      rw [hnomatch m hm]
      simp

theorem live_add_tag_to_note (db : DB) (nid tid : Nat) (h : NoteTagsLive db) :
    NoteTagsLive (NoteModel.add_tag_to_note db nid tid).2.1 := by
  unfold NoteModel.add_tag_to_note
  cases hfind : NoteModel.get_by_id db nid with
  | none => exact h
  | some u =>
    have hu_mem : u ∈ db.notes := List.mem_of_find?_eq_some hfind
    have hu_pred := List.find?_some hfind
    simp only [Bool.and_eq_true, beq_iff_eq, Bool.not_eq_true] at hu_pred
    by_cases htag : tagExists db tid
    · by_cases hany :
          db.note_tags.any (fun p => p.note_id == nid && p.tag_id == tid) = true
      · simp only [htag, hany]
        simp
        exact h
      · simp only [htag, hany]
        simp
        intro p hp
        rcases List.mem_append.mp hp with hold | hnew
        · exact h p hold
        · have : p = { note_id := nid, tag_id := tid } := by simpa using hnew
          rw [this]
          exact ⟨u, hu_mem, hu_pred.1, by simpa using hu_pred.2⟩
    · simp only [htag]
      simp
      exact h

theorem live_remove_tag_from_note (db : DB) (nid tid : Nat) (h : NoteTagsLive db) :
    NoteTagsLive (NoteModel.remove_tag_from_note db nid tid).2.1 := by
  unfold NoteModel.remove_tag_from_note
  by_cases haff :
      0 < (db.note_tags.filter (fun p => p.note_id == nid && p.tag_id == tid)).length
  · simp only [haff, if_pos, if_true]
    intro p hp
    exact h p (List.mem_filter.mp hp).1
  · simp only [haff, if_neg, if_false, ite_false]
    intro p hp
    exact h p (List.mem_filter.mp hp).1

theorem live_update (db : DB) (nid : Nat) (t? c? : Option String)
    (g? : Option (List Nat)) (now : Nat) (h : NoteTagsLive db) :
    NoteTagsLive (NoteModel.update db nid t? c? g? now).2 := by
  unfold NoteModel.update
  cases hfind : NoteModel.get_by_id db nid with
  | none => exact h
  | some u =>
    have hu_mem : u ∈ db.notes := List.mem_of_find?_eq_some hfind
    have hu_pred := List.find?_some hfind
    simp only [Bool.and_eq_true, beq_iff_eq, Bool.not_eq_true] at hu_pred
    have htail : ∀ f : NoteRow → NoteRow,
        (∀ m, (f m).id = m.id ∧ (f m).is_deleted = m.is_deleted) →
        NoteTagsLive
          ((if 0 < (db.notes.filter (fun n => n.id == nid && !n.is_deleted)).length then
             (true,
              (let db1 : DB := { db with
                notes := db.notes.map
                  (fun n => if n.id == nid && !n.is_deleted then f n else n) };
               match g? with
               | some tids => NoteModel._update_note_tags db1 nid tids
               | none => db1))
           else
             (false,
              { db with
                notes := db.notes.map
                  (fun n => if n.id == nid && !n.is_deleted then f n else n) })).2) := by
      intro f hf
      have hdb1 : NoteTagsLive
          { db with
            notes := db.notes.map
              (fun n => if n.id == nid && !n.is_deleted then f n else n) } := by
        intro p hp
        obtain ⟨m, hm, hmid, hmd⟩ := h p hp
        refine ⟨if m.id == nid && !m.is_deleted then f m else m,
          List.mem_map.mpr ⟨m, hm, rfl⟩, ?_, ?_⟩
        · by_cases hP : (m.id == nid && !m.is_deleted) = true
          · rw [if_pos hP, (hf m).1]; exact hmid
          · rw [if_neg hP]; exact hmid
        · by_cases hP : (m.id == nid && !m.is_deleted) = true
          · rw [if_pos hP, (hf m).2]; exact hmd
          · rw [if_neg hP]; exact hmd
      by_cases haff : 0 < (db.notes.filter (fun n => n.id == nid && !n.is_deleted)).length
      · rw [if_pos haff]
        cases g? with
        | none => exact hdb1
        | some tids =>
          refine live_update_note_tags _ nid tids hdb1 ⟨f u, ?_, ?_, ?_⟩
          · refine List.mem_map.mpr ⟨u, hu_mem, ?_⟩
            rw [if_pos (by simp [hu_pred.1, hu_pred.2])]
          · rw [(hf u).1]; exact hu_pred.1
          · rw [(hf u).2]; simpa using hu_pred.2
      · rw [if_neg haff]
        exact hdb1
    cases t? with
    | none =>
      cases c? with
      | none =>
        simpa using htail (fun n => { n with updated_at := now }) (fun m => ⟨rfl, rfl⟩)
      | some cval =>
        simpa using htail (fun n => { n with content := cval, updated_at := now })
          (fun m => ⟨rfl, rfl⟩)
    | some raw =>
      by_cases hraw : pyStrip raw = ""
      · simp only [hraw, if_pos, if_true]
        exact h
      · cases c? with
        | none =>
          simp only [hraw, if_neg, if_false, ite_false]
          simpa using htail
            (fun n => { n with title := pyStrip raw, updated_at := now })
            (fun m => ⟨rfl, rfl⟩)
        | some cval =>
          simp only [hraw, if_neg, if_false, ite_false]
          simpa using htail
            (fun n => { n with title := pyStrip raw, content := cval, updated_at := now })
            (fun m => ⟨rfl, rfl⟩)

theorem live_op (db : DB) (op : NoteOp) (h : NoteTagsLive db) :
    NoteTagsLive (applyNoteOp db op) := by
  cases op with
  | createOp title content tag_ids now => exact live_create db title content tag_ids now h
  | updateOp note_id t? c? g? now => exact live_update db note_id t? c? g? now h
  | deleteOp note_id now => exact live_delete db note_id now h
  | addTagOp note_id tag_id => exact live_add_tag_to_note db note_id tag_id h
  | removeTagOp note_id tag_id => exact live_remove_tag_from_note db note_id tag_id h

/-- C10: in every state reachable through the note repository's operations
from a state where every association references a live note (in particular
the empty database), every `note_tags` row still references an existing,
non-soft-deleted note: delete clears associations in the same operation and
associations are only ever added for a live note. -/
theorem c10_note_tags_reference_live_notes (ops : List NoteOp) (db0 : DB)
    (h0 : NoteTagsLive db0) : NoteTagsLive (applyNoteOps ops db0) := by
  induction ops generalizing db0 with
  | nil => exact h0
  | cons op ops ih => exact ih (applyNoteOp db0 op) (live_op db0 op h0)

/-- Witness for C10: a concrete operation sequence from the empty database. -/
theorem c10_witness :
    NoteTagsLive (applyNoteOps
      [NoteOp.createOp "a" "x" [] 0, NoteOp.addTagOp 1 1, NoteOp.deleteOp 1 2]
      emptyDB) :=
  c10_note_tags_reference_live_notes _ emptyDB (by intro p hp; simp [emptyDB] at hp)

/-! ## Claim C5: tag-name uniqueness as an inductive invariant -/

theorem tagWF_empty : TagWF emptyDB := by
  refine ⟨?_, ?_, ?_, ?_⟩ <;> simp [emptyDB, TagWF]

theorem tagWF_insert (db : DB) (nm color : String) (now : Nat)
    (hnm1 : pyStrip nm = nm) (hnm2 : nm ≠ "")
    (hno : ∀ t ∈ db.tags, t.name ≠ nm)
    (h : TagWF db) :
    TagWF { db with
            tags := db.tags ++ [TagRow.mk db.nextTagId nm color now],
            nextTagId := db.nextTagId + 1 } := by
  obtain ⟨hlt, hids, hnames, hnorm⟩ := h
  refine ⟨?_, ?_, ?_, ?_⟩
  · intro t ht
    rcases List.mem_append.mp ht with h1 | h1
    · exact Nat.lt_trans (hlt t h1) (Nat.lt_succ_self _)
    · rw [List.mem_singleton.mp h1]
      exact Nat.lt_succ_self _
  · rw [List.pairwise_append]
    refine ⟨hids, by simp, ?_⟩
    intro a ha b hb
    rw [List.mem_singleton.mp hb]
    exact Nat.ne_of_lt (hlt a ha)
  · rw [List.pairwise_append]
    refine ⟨hnames, by simp, ?_⟩
    intro a ha b hb
    rw [List.mem_singleton.mp hb]
    exact hno a ha
  · intro t ht
    rcases List.mem_append.mp ht with h1 | h1
    · exact hnorm t h1
    · rw [List.mem_singleton.mp h1]
      exact ⟨hnm1, hnm2⟩

theorem tagWF_create (db : DB) (name color : String) (now : Nat) (h : TagWF db) :
    TagWF (TagModel.create db name color now).2 := by
  unfold TagModel.create
  by_cases hname : pyStrip name = ""
  · simp only [hname, if_pos, if_true]
    exact h
  · simp only [hname, if_neg, if_false, ite_false]
    by_cases hdup : (TagModel.get_by_name db (pyStrip name)).isSome = true
    · simp only [hdup, if_pos, if_true]
      exact h
    · simp only [hdup, if_neg, if_false, ite_false, Bool.false_eq_true]
      have hnone : TagModel.get_by_name db (pyStrip name) = none := by
        cases hgb : TagModel.get_by_name db (pyStrip name) with
        | none => rfl
        | some v => rw [hgb] at hdup; simp at hdup
      have hno : ∀ t ∈ db.tags, t.name ≠ pyStrip name := by
        intro t ht hcontr
        have hfe := List.find?_eq_none.mp
          (show db.tags.find? (fun v => v.name == pyStrip (pyStrip name)) = none from hnone)
          t ht
        rw [pyStrip_idem name] at hfe
        exact hfe (by simpa using hcontr)
      exact tagWF_insert db (pyStrip name)
        (if validate_color color then color else "#007ACC") now
        (pyStrip_idem name) hname hno h

theorem tagWF_map (db : DB) (tid : Nat) (f : TagRow → TagRow)
    (hid : ∀ t, (f t).id = t.id)
    (hcase : (∀ t, (f t).name = t.name) ∨
      (∃ nm, (∀ t, (f t).name = nm) ∧ pyStrip nm = nm ∧ nm ≠ "" ∧
        ∀ t ∈ db.tags, t.id ≠ tid → t.name ≠ nm))
    (h : TagWF db) :
    TagWF { db with tags := db.tags.map (fun t => if t.id == tid then f t else t) } := by
  obtain ⟨hlt, hids, hnames, hnorm⟩ := h
  have gid : ∀ a : TagRow, (if (a.id == tid) = true then f a else a).id = a.id := by
    intro a
    by_cases hPa : (a.id == tid) = true
    · rw [if_pos hPa, hid a]
    · rw [if_neg hPa]
  refine ⟨?_, ?_, ?_, ?_⟩
  · intro t ht
    obtain ⟨t0, ht0, rfl⟩ := List.mem_map.mp ht
    rw [gid t0]
    exact hlt t0 ht0
  · rw [List.pairwise_map]
    refine List.Pairwise.imp_of_mem ?_ hids
    intro a b _ _ hab
    rw [gid a, gid b]
    exact hab
  · rw [List.pairwise_map]
    refine List.Pairwise.imp_of_mem ?_ (List.Pairwise.and hids hnames)
    intro a b ha hb hab
    obtain ⟨haid, haname⟩ := hab
    rcases hcase with hsame | ⟨nm, hnm, _, _, hconf⟩
    · have ga : (if (a.id == tid) = true then f a else a).name = a.name := by
        by_cases hPa : (a.id == tid) = true
        · rw [if_pos hPa, hsame a]
        · rw [if_neg hPa]
      have gb : (if (b.id == tid) = true then f b else b).name = b.name := by
        by_cases hPb : (b.id == tid) = true
        · rw [if_pos hPb, hsame b]
        · rw [if_neg hPb]
      rw [ga, gb]
      exact haname
    · by_cases hPa : (a.id == tid) = true <;> by_cases hPb : (b.id == tid) = true
      · exfalso
        have h1 : a.id = tid := by simpa using hPa
        have h2 : b.id = tid := by simpa using hPb
        exact haid (h1.trans h2.symm)
      · rw [if_pos hPa, if_neg hPb, hnm a]
        have hb' : b.id ≠ tid := by simpa using hPb
        exact fun hc => hconf b hb hb' hc.symm
      · rw [if_neg hPa, if_pos hPb, hnm b]
        have ha' : a.id ≠ tid := by simpa using hPa
        exact hconf a ha ha'
      · rw [if_neg hPa, if_neg hPb]
        exact haname
  · intro t ht
    obtain ⟨t0, ht0, rfl⟩ := List.mem_map.mp ht
    by_cases hP : (t0.id == tid) = true
    · rw [if_pos hP]
      rcases hcase with hsame | ⟨nm, hnm, hn1, hn2, _⟩
      · rw [hsame t0]
        exact hnorm t0 ht0
      · rw [hnm t0]
        exact ⟨hn1, hn2⟩
    · rw [if_neg hP]
      exact hnorm t0 ht0

theorem tagWF_update (db : DB) (tid : Nat) (n? c? : Option String) (h : TagWF db) :
    TagWF (TagModel.update db tid n? c?).2 := by
  have hgoal : ∀ f : TagRow → TagRow, (∀ t, (f t).id = t.id) →
      ((∀ t, (f t).name = t.name) ∨
        (∃ nm, (∀ t, (f t).name = nm) ∧ pyStrip nm = nm ∧ nm ≠ "" ∧
          ∀ t ∈ db.tags, t.id ≠ tid → t.name ≠ nm)) →
      TagWF ((if 0 < (db.tags.filter (fun t => t.id == tid)).length then
          ((true : Bool),
           { db with tags := db.tags.map (fun t => if t.id == tid then f t else t) })
        else
          (false,
           { db with tags := db.tags.map (fun t => if t.id == tid then f t else t) })).2) := by
    intro f hid hcase
    by_cases haff : 0 < (db.tags.filter (fun t => t.id == tid)).length
    · rw [if_pos haff]
      exact tagWF_map db tid f hid hcase h
    · rw [if_neg haff]
      exact tagWF_map db tid f hid hcase h
  unfold TagModel.update
  cases hfind : TagModel.get_by_id db tid with
  | none => exact h
  | some u =>
    cases n? with
    | none =>
      cases c? with
      | none => exact h
      | some c =>
        dsimp only
        by_cases hcv : validate_color c = true
        · simp only [hcv]
          exact hgoal (fun t => { t with color := c }) (fun t => rfl) (Or.inl (fun t => rfl))
        · simp only [eq_false_of_ne_true hcv]
          exact h
    | some raw =>
      dsimp only
      by_cases hraw : pyStrip raw = ""
      · rw [if_pos hraw]
        exact h
      · rw [if_neg hraw]
        cases hgn : TagModel.get_by_name db (pyStrip raw) with
        | none =>
          dsimp only
          have hconf : ∀ t ∈ db.tags, t.id ≠ tid → t.name ≠ pyStrip raw := by
            intro t ht _ hcontr
            have hfe := List.find?_eq_none.mp
              (show db.tags.find? (fun v => v.name == pyStrip (pyStrip raw)) = none from hgn)
              t ht
            rw [pyStrip_idem raw] at hfe
            exact hfe (by simpa using hcontr)
          cases c? with
          | none =>
            exact hgoal (fun t => { t with name := pyStrip raw }) (fun t => rfl)
              (Or.inr ⟨pyStrip raw, fun t => rfl, pyStrip_idem raw, hraw, hconf⟩)
          | some c =>
            by_cases hcv : validate_color c = true
            · simp only [hcv]
              exact hgoal (fun t => { t with name := pyStrip raw, color := c })
                (fun t => rfl)
                (Or.inr ⟨pyStrip raw, fun t => rfl, pyStrip_idem raw, hraw, hconf⟩)
            · simp only [eq_false_of_ne_true hcv]
              exact h
        | some other =>
          dsimp only
          by_cases hoth : other.id ≠ tid
          · rw [if_pos hoth]
            exact h
          · rw [if_neg hoth]
            have hother_mem := List.mem_of_find?_eq_some hgn
            have hother_name : other.name = pyStrip raw := by
              have hvp := List.find?_some hgn
              rw [pyStrip_idem raw] at hvp
              simpa using hvp
            have hconf : ∀ t ∈ db.tags, t.id ≠ tid → t.name ≠ pyStrip raw := by
              intro t ht htid hcontr
              have hte : t = other :=
                eq_of_pairwise_key (fun x => x.name) h.2.2.1 ht hother_mem
                  (hcontr.trans hother_name.symm)
              rw [hte] at htid
              exact htid (not_not.mp hoth)
            cases c? with
            | none =>
              exact hgoal (fun t => { t with name := pyStrip raw }) (fun t => rfl)
                (Or.inr ⟨pyStrip raw, fun t => rfl, pyStrip_idem raw, hraw, hconf⟩)
            | some c =>
              by_cases hcv : validate_color c = true
              · simp only [hcv]
                exact hgoal (fun t => { t with name := pyStrip raw, color := c })
                  (fun t => rfl)
                  (Or.inr ⟨pyStrip raw, fun t => rfl, pyStrip_idem raw, hraw, hconf⟩)
              · simp only [eq_false_of_ne_true hcv]
                exact h

theorem tagWF_op (db : DB) (op : TagOp) (h : TagWF db) : TagWF (applyTagOp db op) := by
  cases op with
  | createOp name color now => exact tagWF_create db name color now h
  | updateOp tag_id n? c? => exact tagWF_update db tag_id n? c? h

theorem tagWF_ops (ops : List TagOp) (db : DB) (h : TagWF db) :
    TagWF (applyTagOps ops db) := by
  induction ops generalizing db with
  | nil => exact h
  | cons op ops ih => exact ih (applyTagOp db op) (tagWF_op db op h)

/-- C5: after any sequence of tag create/update operations from the fresh
database, no two tags share a strip-trimmed, case-sensitively-equal name;
and a create or update that would produce a duplicate name fails, leaving
the tags table unchanged. -/
theorem c5_tag_name_uniqueness (ops : List TagOp) :
    ((applyTagOps ops emptyDB).tags.Pairwise (fun a b => pyStrip a.name ≠ pyStrip b.name))
    ∧ (∀ name color now, (∃ t ∈ (applyTagOps ops emptyDB).tags, t.name = pyStrip name) →
        TagModel.create (applyTagOps ops emptyDB) name color now =
          (none, applyTagOps ops emptyDB))
    ∧ (∀ tid raw c?, (∃ t ∈ (applyTagOps ops emptyDB).tags, t.id ≠ tid ∧ t.name = pyStrip raw) →
        TagModel.update (applyTagOps ops emptyDB) tid (some raw) c? =
          (false, applyTagOps ops emptyDB)) := by
  have hwf : TagWF (applyTagOps ops emptyDB) := tagWF_ops ops emptyDB tagWF_empty
  obtain ⟨hlt, hids, hnames, hnorm⟩ := hwf
  refine ⟨?_, ?_, ?_⟩
  · refine List.Pairwise.imp_of_mem ?_ hnames
    intro a b ha hb hab
    rw [(hnorm a ha).1, (hnorm b hb).1]
    exact hab
  · intro name color now hex
    obtain ⟨t, ht, htn⟩ := hex
    have hne : pyStrip name ≠ "" := by
      rw [← htn]
      exact (hnorm t ht).2
    have hsome : (TagModel.get_by_name (applyTagOps ops emptyDB) (pyStrip name)).isSome
        = true := by
      unfold TagModel.get_by_name
      rw [List.find?_isSome]
      refine ⟨t, ht, ?_⟩
      rw [pyStrip_idem name]
      simpa using htn
    unfold TagModel.create
    simp [hne, hsome]
  · intro tid raw c? hex
    obtain ⟨t, ht, htid, htn⟩ := hex
    cases hfind : TagModel.get_by_id (applyTagOps ops emptyDB) tid with
    | none => simp [TagModel.update, hfind]
    | some u =>
      have hraw : pyStrip raw ≠ "" := by
        rw [← htn]
        exact (hnorm t ht).2
      cases hgn : TagModel.get_by_name (applyTagOps ops emptyDB) (pyStrip raw) with
      | none =>
        exfalso
        have hfe := List.find?_eq_none.mp
          (show (applyTagOps ops emptyDB).tags.find?
            (fun v => v.name == pyStrip (pyStrip raw)) = none from hgn) t ht
        rw [pyStrip_idem raw] at hfe
        exact hfe (by simpa using htn)
      | some v =>
        have hv_mem := List.mem_of_find?_eq_some hgn
        have hv_name : v.name = pyStrip raw := by
          have hvp := List.find?_some hgn
          rw [pyStrip_idem raw] at hvp
          simpa using hvp
        have hvt : v = t :=
          eq_of_pairwise_key (fun x => x.name) hnames hv_mem ht (hv_name.trans htn.symm)
        have hvid : v.id ≠ tid := by
          rw [hvt]
          exact htid
        simp [TagModel.update, hfind, hraw, hgn, hvid]

/-- Witness for C5: creating "A" twice — the second create fails and the
table is unchanged. -/
theorem c5_witness :
    TagModel.create (applyTagOps [TagOp.createOp "A" "#FF0000" 0] emptyDB) "A" "#00FF00" 1 =
      (none, applyTagOps [TagOp.createOp "A" "#FF0000" 0] emptyDB) :=
  (c5_tag_name_uniqueness [TagOp.createOp "A" "#FF0000" 0]).2.1 "A" "#00FF00" 1
    ⟨TagRow.mk 1 "A" "#FF0000" 0, by decide, by decide⟩

end NoteBoard
